import Mathlib

/-!
# Verification of the ADT-match extraction stage

Shallow embedding of `src/term/transform/extract_adt_matches.rs`: the pass that
lifts `match` expressions over ADT or tuple scrutinees into fresh top-level
definitions.  Rust's in-place mutation is modelled by returning the rewritten
term; the `&mut Vec` accumulators (`new_defs`, `warnings`) are modelled as
returned deltas appended in traversal order; the `&mut usize` match counter is
threaded through explicitly.  `unreachable!()` and `todo!()` are modelled by an
explicit `panic` result constructor.  Constructor/field layouts not visible in
the source file (they live in sibling modules of the repository) are modelled
from the spec and marked as such; fields that the source file itself hides
behind `..` patterns and never reads or writes (binder tags, operator payload)
are carried as inert data or omitted.
-/

set_option maxHeartbeats 1000000

namespace ExtractAdtMatches

/-- Definition and variable names (`Name` wraps a string in the repository). -/
abbrev Name := String

/-- The constructor table: maps each constructor name to the name of the ADT
that owns it.  `IndexMap<Name, Name>` in the source; modelled as an
insertion-ordered association list with unique keys. -/
abbrev Ctrs := List (Name × Name)

/-- Operator payload of a binary-operation term; never inspected by this
stage, carried as an inert numeric code. -/
abbrev Oper := Nat

/-- The four-shape type descriptor (`Type` in the source): `None` (no pattern
seen yet), `Any` (a variable pattern), `Num`, `Tup`, `Adt adt-name`. -/
inductive MType where
  | none
  | any
  | num
  | tup
  | adt (nam : Name)
deriving DecidableEq, Repr

/-- Patterns: variable binder (possibly anonymous), constructor application,
numeric literal, tuple. -/
inductive Pattern where
  | var (nam : Option Name)
  | ctr (nam : Name) (args : List Pattern)
  | num (val : Nat)
  | tup (fst snd : Pattern)

mutual
/-- Program terms.  Fields that the source file hides behind `..` patterns and
never touches (binder tags) are omitted; payloads of leaf shapes are kept. -/
inductive Term where
  | var (nam : Name)
  | lnk (nam : Name)
  | num (val : Nat)
  | str (val : String)
  | ref (nam : Name)
  | era
  | err
  | lam (nam : Option Name) (bod : Term)
  | chn (nam : Name) (bod : Term)
  | app (fn arg : Term)
  | letE (pat : Pattern) (val nxt : Term)
  | dup (fst snd : Option Name) (val nxt : Term)
  | tup (fst snd : Term)
  | sup (fst snd : Term)
  | opx (op : Oper) (fst snd : Term)
  | lst (els : List Term)
  | mat (matched : Term) (arms : Arms)

/-- The ordered sequence of `(Pattern, Term)` arms of a match expression
(`Vec<(Pattern, Term)>` in the source). -/
inductive Arms where
  | nil
  | cons (pat : Pattern) (body : Term) (rest : Arms)
end

/-- One rule of a definition: a list of patterns and a body. -/
structure Rule where
  pats : List Pattern
  body : Term

/-- A top-level definition.  Its construction site in the source names exactly
the fields `name`, `rules` and `builtin` (a Rust struct literal must name every
field), so the record has exactly these three. -/
structure Definition where
  name : Name
  rules : List Rule
  builtin : Bool

/-- The program: an insertion-ordered map from definition name to definition
(`IndexMap` in the source), plus the immutable constructor table. -/
structure Book where
  defs : List (Name × Definition)
  ctrs : Ctrs

/-- The warning relevant to this stage (`Warning::MatchOnlyVars`). -/
inductive Warning where
  | matchOnlyVars (def_name : Name)
deriving DecidableEq, Repr

/-- The shared error taxonomy of the match-related passes (`MatchError`).
`Missing` carries a `HashSet<Name>` in the source, modelled as a list. -/
inductive MatchError where
  | empty
  | infer (msg : String)
  | repeated (nam : Name)
  | missing (names : List Name)
  | letPat (e : MatchError)
  | linearize (nam : Name)

/-- Result of a fallible computation that may also hit a `panic!`-family
macro (`unreachable!`, `todo!`): `ok`, a returned error, or a panic. -/
inductive Res (ε α : Type) where
  | ok (val : α)
  | err (e : ε)
  | panic (msg : String)

/-- Modelled from the spec: the rendering of a type-lattice shape inside the
`Infer` message (the `Display` impl for `Type` is not under `src/`, only its
use in `infer_match_type` is).  §4.1/§8 name the shapes `Unknown`, `Any`,
`Numeric`, `Tuple`, `Named(...)`. -/
def MType.show : MType → String
  | MType.none => "Unknown"
  | MType.any => "Any"
  | MType.num => "Numeric"
  | MType.tup => "Tuple"
  | MType.adt nam => "Named(" ++ nam ++ ")"

/-- The `DisplayJoin(names, ", ")`: join rendered names with a separator. -/
def joinNames : List Name → String
  | [] => ""
  | [n] => n
  | n :: rest => n ++ ", " ++ joinNames rest

/-- The `ctrs_plural_or_sing` from the `Display` impl of `MatchError`. -/
def ctrs_plural_or_sing (n : Nat) : String :=
  if n > 1 then "constructors" else "a constructor"

/-- The `Display` impl of `MatchError`. -/
def MatchError.display : MatchError → String
  | MatchError.empty => "Empty match block found"
  | MatchError.infer e => e
  | MatchError.repeated bind => "Repeated var name in a match block: " ++ bind
  | MatchError.missing names =>
      "Missing " ++ ctrs_plural_or_sing names.length ++ " in a match block: " ++ joinNames names
  | MatchError.letPat e =>
      let let_err := (MatchError.display e).replace "match block" "let bind"
      match e with
      | MatchError.missing _ => let_err ++ "\nConsider using a match block instead"
      | _ => let_err
  | MatchError.linearize v => "Unable to linearize variable " ++ v ++ " in a match block."

/-- Modelled from the spec: `Pattern::to_type` is not under `src/` (only its
caller `infer_match_type` is).  §4.2: variable binder classifies as `Any`,
numeric literal as `Numeric`, tuple pattern as `Tuple`, and a constructor
pattern looks its constructor up in the constructor table, yielding
`Named(owner)`; a missing entry "is an internal invariant violation",
modelled as a panic (an `IndexMap` index panics with "key not found"). -/
def Pattern.to_type (p : Pattern) (ctrs : Ctrs) : Res MatchError MType :=
  match p with
  | Pattern.var _ => Res.ok MType.any
  | Pattern.num _ => Res.ok MType.num
  | Pattern.tup _ _ => Res.ok MType.tup
  | Pattern.ctr nam _ =>
      match ctrs.lookup nam with
      | some adt => Res.ok (MType.adt adt)
      | Option.none => Res.panic "key not found"

/-- The `Infer` error raised on a hard shape mismatch, with both shapes
rendered as in the source: `Type mismatch. Found '{new}' expected {old}.` -/
def inferErr (new old : MType) : MatchError :=
  MatchError.infer ("Type mismatch. Found '" ++ new.show ++ "' expected " ++ old.show ++ ".")

/-- One step of the unification fold in `infer_match_type`: the source matches
on `(new_type, &mut match_type)` with the accumulated type second; arms are
translated in source order. -/
def unifyStep (new old : MType) : Res MatchError MType :=
  match new, old with
  | new, MType.none => Res.ok new
  | _, MType.any => Res.ok MType.any
  | MType.any, old => Res.ok old
  | MType.tup, MType.tup => Res.ok MType.tup
  | MType.num, MType.num => Res.ok MType.num
  | MType.adt nam_new, MType.adt nam_old =>
      if nam_new = nam_old then Res.ok (MType.adt nam_old)
      else Res.err (inferErr (MType.adt nam_new) (MType.adt nam_old))
  | new, old => Res.err (inferErr new old)

/-- The loop body of `infer_match_type`, folding `unifyStep` over the
patterns with accumulator `match_type` (initially `Type::None`). -/
def inferGo (pats : List Pattern) (ctrs : Ctrs) (match_type : MType) : Res MatchError MType :=
  match pats with
  | [] => Res.ok match_type
  | p :: ps =>
      match p.to_type ctrs with
      | Res.ok new_type =>
          match unifyStep new_type match_type with
          | Res.ok match_type2 => inferGo ps ctrs match_type2
          | Res.err e => Res.err e
          | Res.panic m => Res.panic m
      | Res.err e => Res.err e
      | Res.panic m => Res.panic m

/-- The `infer_match_type`: finds the expected type of the matched argument,
erroring on incompatible shapes. -/
def infer_match_type (pats : List Pattern) (ctrs : Ctrs) : Res MatchError MType :=
  inferGo pats ctrs MType.none

/-- The list of the arms' patterns, in order (`arms.iter().map(|(x, _)| x)`). -/
def Arms.pats : Arms → List Pattern
  | Arms.nil => []
  | Arms.cons p _ rest => p :: Arms.pats rest

/-- The arms as a list of `(pattern, body)` pairs. -/
def Arms.toList : Arms → List (Pattern × Term)
  | Arms.nil => []
  | Arms.cons p b rest => (p, b) :: Arms.toList rest

/-- Number of arms (`arms.len()`). -/
def Arms.len : Arms → Nat
  | Arms.nil => 0
  | Arms.cons _ _ rest => Arms.len rest + 1

/-- The `arms.iter().all(|(pat, ..)| matches!(pat, Pattern::Var(..)))`. -/
def Arms.allVarPats : Arms → Bool
  | Arms.nil => true
  | Arms.cons (Pattern.var _) _ rest => Arms.allVarPats rest
  | Arms.cons _ _ _ => false

/-- The `arms.iter().map(|(pat, term)| Rule { pats: vec![pat.clone()], body: term.clone() })`. -/
def Arms.toRules : Arms → List Rule
  | Arms.nil => []
  | Arms.cons p b rest => { pats := [p], body := b } :: Arms.toRules rest

/-- The `match_to_def`: transforms a match into a new definition with every arm as
a rule, returning the replacement term (the new definition applied to the
scrutinee — `Term::arg_call`, modelled from the spec as an application of a
global reference to the scrutinee variable, since `arg_call` is not under
`src/`) together with the `(name, definition)` pair pushed onto `new_defs`. -/
def match_to_def (matched_var : Name) (arms : Arms) (def_name : Name) (builtin : Bool)
    (match_count : Nat) : Term × (Name × Definition) :=
  let rules := arms.toRules
  let new_name := def_name ++ "$match$" ++ toString match_count
  let d : Definition := { name := new_name, rules := rules, builtin := builtin }
  (Term.app (Term.ref new_name) (Term.var matched_var), (new_name, d))

mutual
/-- The `Term::extract` (the second, extraction-deciding traversal).  Returns the
rewritten term, the definitions pushed onto `new_defs` (in push order) and the
final value of the match counter.  The Rust function mutates the term in place
through `&mut self`, so when a recursive call fails the caller's term keeps
every rewrite performed before the failure: an error therefore carries, next
to the `MatchError`, the partially rewritten term as the `?` operator leaves
it (already-processed subterms rewritten, the failing subterm as its own
recursion left it, the rest untouched). -/
def Term.extract (t : Term) (def_name : Name) (builtin : Bool) (ctrs : Ctrs)
    (match_count : Nat) :
    Res (MatchError × Term) (Term × List (Name × Definition) × Nat) :=
  match t with
  | Term.mat (Term.var nam) arms =>
      match Arms.extract arms def_name builtin ctrs match_count with
      | Res.ok (arms2, nd1, c1) =>
          match infer_match_type arms2.pats ctrs with
          | Res.ok matched_type =>
              match matched_type with
              | MType.none | MType.any | MType.num =>
                  Res.ok (Term.mat (Term.var nam) arms2, nd1, c1)
              | MType.adt _ | MType.tup =>
                  let c2 := c1 + 1
                  let (t2, nd) := match_to_def nam arms2 def_name builtin c2
                  Res.ok (t2, nd1 ++ [nd], c2)
          | Res.err e => Res.err (e, Term.mat (Term.var nam) arms2)
          | Res.panic m => Res.panic m
      | Res.err ep => Res.err (ep.1, Term.mat (Term.var nam) ep.2)
      | Res.panic m => Res.panic m
  | Term.lam nam bod =>
      match Term.extract bod def_name builtin ctrs match_count with
      | Res.ok (bod2, nd, c) => Res.ok (Term.lam nam bod2, nd, c)
      | Res.err ep => Res.err (ep.1, Term.lam nam ep.2)
      | Res.panic m => Res.panic m
  | Term.chn nam bod =>
      match Term.extract bod def_name builtin ctrs match_count with
      | Res.ok (bod2, nd, c) => Res.ok (Term.chn nam bod2, nd, c)
      | Res.err ep => Res.err (ep.1, Term.chn nam ep.2)
      | Res.panic m => Res.panic m
  | Term.letE (Pattern.var v) fst snd =>
      match Term.extract fst def_name builtin ctrs match_count with
      | Res.ok (fst2, nd1, c1) =>
          match Term.extract snd def_name builtin ctrs c1 with
          | Res.ok (snd2, nd2, c2) => Res.ok (Term.letE (Pattern.var v) fst2 snd2, nd1 ++ nd2, c2)
          | Res.err ep => Res.err (ep.1, Term.letE (Pattern.var v) fst2 ep.2)
          | Res.panic m => Res.panic m
      | Res.err ep => Res.err (ep.1, Term.letE (Pattern.var v) ep.2 snd)
      | Res.panic m => Res.panic m
  | Term.tup fst snd =>
      match Term.extract fst def_name builtin ctrs match_count with
      | Res.ok (fst2, nd1, c1) =>
          match Term.extract snd def_name builtin ctrs c1 with
          | Res.ok (snd2, nd2, c2) => Res.ok (Term.tup fst2 snd2, nd1 ++ nd2, c2)
          | Res.err ep => Res.err (ep.1, Term.tup fst2 ep.2)
          | Res.panic m => Res.panic m
      | Res.err ep => Res.err (ep.1, Term.tup ep.2 snd)
      | Res.panic m => Res.panic m
  | Term.dup dfst dsnd fst snd =>
      match Term.extract fst def_name builtin ctrs match_count with
      | Res.ok (fst2, nd1, c1) =>
          match Term.extract snd def_name builtin ctrs c1 with
          | Res.ok (snd2, nd2, c2) => Res.ok (Term.dup dfst dsnd fst2 snd2, nd1 ++ nd2, c2)
          | Res.err ep => Res.err (ep.1, Term.dup dfst dsnd fst2 ep.2)
          | Res.panic m => Res.panic m
      | Res.err ep => Res.err (ep.1, Term.dup dfst dsnd ep.2 snd)
      | Res.panic m => Res.panic m
  | Term.sup fst snd =>
      match Term.extract fst def_name builtin ctrs match_count with
      | Res.ok (fst2, nd1, c1) =>
          match Term.extract snd def_name builtin ctrs c1 with
          | Res.ok (snd2, nd2, c2) => Res.ok (Term.sup fst2 snd2, nd1 ++ nd2, c2)
          | Res.err ep => Res.err (ep.1, Term.sup fst2 ep.2)
          | Res.panic m => Res.panic m
      | Res.err ep => Res.err (ep.1, Term.sup ep.2 snd)
      | Res.panic m => Res.panic m
  | Term.opx op fst snd =>
      match Term.extract fst def_name builtin ctrs match_count with
      | Res.ok (fst2, nd1, c1) =>
          match Term.extract snd def_name builtin ctrs c1 with
          | Res.ok (snd2, nd2, c2) => Res.ok (Term.opx op fst2 snd2, nd1 ++ nd2, c2)
          | Res.err ep => Res.err (ep.1, Term.opx op fst2 ep.2)
          | Res.panic m => Res.panic m
      | Res.err ep => Res.err (ep.1, Term.opx op ep.2 snd)
      | Res.panic m => Res.panic m
  | Term.app fn arg =>
      match Term.extract fn def_name builtin ctrs match_count with
      | Res.ok (fn2, nd1, c1) =>
          match Term.extract arg def_name builtin ctrs c1 with
          | Res.ok (arg2, nd2, c2) => Res.ok (Term.app fn2 arg2, nd1 ++ nd2, c2)
          | Res.err ep => Res.err (ep.1, Term.app fn2 ep.2)
          | Res.panic m => Res.panic m
      | Res.err ep => Res.err (ep.1, Term.app ep.2 arg)
      | Res.panic m => Res.panic m
  | Term.lst _ => Res.panic "internal error: entered unreachable code"
  | Term.mat _ _ => Res.panic "Scrutinee of match expression should have been extracted already"
  | Term.letE _ _ _ => Res.panic "Destructor let expression should have been desugared already"
  | Term.str v => Res.ok (Term.str v, [], match_count)
  | Term.lnk n => Res.ok (Term.lnk n, [], match_count)
  | Term.var n => Res.ok (Term.var n, [], match_count)
  | Term.num v => Res.ok (Term.num v, [], match_count)
  | Term.ref n => Res.ok (Term.ref n, [], match_count)
  | Term.era => Res.ok (Term.era, [], match_count)
  | Term.err => Res.panic "not yet implemented"

/-- The `for (_, body) in arms.iter_mut()` loop of `Term::extract` over a
match's arms, left to right.  On failure the error carries the partially
rewritten arms (earlier arms rewritten, the failing arm's body as its own
recursion left it, later arms untouched). -/
def Arms.extract (arms : Arms) (def_name : Name) (builtin : Bool) (ctrs : Ctrs)
    (match_count : Nat) :
    Res (MatchError × Arms) (Arms × List (Name × Definition) × Nat) :=
  match arms with
  | Arms.nil => Res.ok (Arms.nil, [], match_count)
  | Arms.cons p b rest =>
      match Term.extract b def_name builtin ctrs match_count with
      | Res.ok (b2, nd1, c1) =>
          match Arms.extract rest def_name builtin ctrs c1 with
          | Res.ok (rest2, nd2, c2) => Res.ok (Arms.cons p b2 rest2, nd1 ++ nd2, c2)
          | Res.err ep => Res.err (ep.1, Arms.cons p b2 ep.2)
          | Res.panic m => Res.panic m
      | Res.err ep => Res.err (ep.1, Arms.cons p ep.2 rest)
      | Res.panic m => Res.panic m
end

mutual
/-- The `Term::extract_adt_matches` (the first, warning-emitting traversal, which
calls `Term::extract` on every match-on-variable it meets).  The first
component is the traversal result (rewritten term, `new_defs` delta, final
match counter); the second is the delta pushed onto the `&mut Vec<Warning>`,
which in Rust persists even when the traversal returns an error. -/
def Term.extract_adt_matches (t : Term) (def_name : Name) (builtin : Bool) (ctrs : Ctrs)
    (match_count : Nat) :
    Res (MatchError × Term) (Term × List (Name × Definition) × Nat) × List Warning :=
  match t with
  | Term.mat (Term.var nam) arms =>
      let all_vars := arms.allVarPats
      let ws0 : List Warning :=
        if all_vars = true ∧ arms.len > 1 then [Warning.matchOnlyVars def_name] else []
      match Arms.extract_adt_matches arms def_name builtin ctrs match_count with
      | (Res.ok (arms2, nd1, c1), ws1) =>
          match Term.extract (Term.mat (Term.var nam) arms2) def_name builtin ctrs c1 with
          | Res.ok (t2, nd2, c2) => (Res.ok (t2, nd1 ++ nd2, c2), ws0 ++ ws1)
          | Res.err ep => (Res.err ep, ws0 ++ ws1)
          | Res.panic m => (Res.panic m, ws0 ++ ws1)
      | (Res.err ep, ws1) => (Res.err (ep.1, Term.mat (Term.var nam) ep.2), ws0 ++ ws1)
      | (Res.panic m, ws1) => (Res.panic m, ws0 ++ ws1)
  | Term.lam nam bod =>
      match Term.extract_adt_matches bod def_name builtin ctrs match_count with
      | (Res.ok (bod2, nd, c), ws) => (Res.ok (Term.lam nam bod2, nd, c), ws)
      | (Res.err ep, ws) => (Res.err (ep.1, Term.lam nam ep.2), ws)
      | (Res.panic m, ws) => (Res.panic m, ws)
  | Term.chn nam bod =>
      match Term.extract_adt_matches bod def_name builtin ctrs match_count with
      | (Res.ok (bod2, nd, c), ws) => (Res.ok (Term.chn nam bod2, nd, c), ws)
      | (Res.err ep, ws) => (Res.err (ep.1, Term.chn nam ep.2), ws)
      | (Res.panic m, ws) => (Res.panic m, ws)
  | Term.app fn arg =>
      match Term.extract_adt_matches fn def_name builtin ctrs match_count with
      | (Res.ok (fn2, nd1, c1), ws1) =>
          match Term.extract_adt_matches arg def_name builtin ctrs c1 with
          | (Res.ok (arg2, nd2, c2), ws2) => (Res.ok (Term.app fn2 arg2, nd1 ++ nd2, c2), ws1 ++ ws2)
          | (Res.err ep, ws2) => (Res.err (ep.1, Term.app fn2 ep.2), ws1 ++ ws2)
          | (Res.panic m, ws2) => (Res.panic m, ws1 ++ ws2)
      | (Res.err ep, ws1) => (Res.err (ep.1, Term.app ep.2 arg), ws1)
      | (Res.panic m, ws1) => (Res.panic m, ws1)
  | Term.letE (Pattern.var v) fst snd =>
      match Term.extract_adt_matches fst def_name builtin ctrs match_count with
      | (Res.ok (fst2, nd1, c1), ws1) =>
          match Term.extract_adt_matches snd def_name builtin ctrs c1 with
          | (Res.ok (snd2, nd2, c2), ws2) =>
              (Res.ok (Term.letE (Pattern.var v) fst2 snd2, nd1 ++ nd2, c2), ws1 ++ ws2)
          | (Res.err ep, ws2) => (Res.err (ep.1, Term.letE (Pattern.var v) fst2 ep.2), ws1 ++ ws2)
          | (Res.panic m, ws2) => (Res.panic m, ws1 ++ ws2)
      | (Res.err ep, ws1) => (Res.err (ep.1, Term.letE (Pattern.var v) ep.2 snd), ws1)
      | (Res.panic m, ws1) => (Res.panic m, ws1)
  | Term.dup dfst dsnd fst snd =>
      match Term.extract_adt_matches fst def_name builtin ctrs match_count with
      | (Res.ok (fst2, nd1, c1), ws1) =>
          match Term.extract_adt_matches snd def_name builtin ctrs c1 with
          | (Res.ok (snd2, nd2, c2), ws2) =>
              (Res.ok (Term.dup dfst dsnd fst2 snd2, nd1 ++ nd2, c2), ws1 ++ ws2)
          | (Res.err ep, ws2) => (Res.err (ep.1, Term.dup dfst dsnd fst2 ep.2), ws1 ++ ws2)
          | (Res.panic m, ws2) => (Res.panic m, ws1 ++ ws2)
      | (Res.err ep, ws1) => (Res.err (ep.1, Term.dup dfst dsnd ep.2 snd), ws1)
      | (Res.panic m, ws1) => (Res.panic m, ws1)
  | Term.tup fst snd =>
      match Term.extract_adt_matches fst def_name builtin ctrs match_count with
      | (Res.ok (fst2, nd1, c1), ws1) =>
          match Term.extract_adt_matches snd def_name builtin ctrs c1 with
          | (Res.ok (snd2, nd2, c2), ws2) => (Res.ok (Term.tup fst2 snd2, nd1 ++ nd2, c2), ws1 ++ ws2)
          | (Res.err ep, ws2) => (Res.err (ep.1, Term.tup fst2 ep.2), ws1 ++ ws2)
          | (Res.panic m, ws2) => (Res.panic m, ws1 ++ ws2)
      | (Res.err ep, ws1) => (Res.err (ep.1, Term.tup ep.2 snd), ws1)
      | (Res.panic m, ws1) => (Res.panic m, ws1)
  | Term.sup fst snd =>
      match Term.extract_adt_matches fst def_name builtin ctrs match_count with
      | (Res.ok (fst2, nd1, c1), ws1) =>
          match Term.extract_adt_matches snd def_name builtin ctrs c1 with
          | (Res.ok (snd2, nd2, c2), ws2) => (Res.ok (Term.sup fst2 snd2, nd1 ++ nd2, c2), ws1 ++ ws2)
          | (Res.err ep, ws2) => (Res.err (ep.1, Term.sup fst2 ep.2), ws1 ++ ws2)
          | (Res.panic m, ws2) => (Res.panic m, ws1 ++ ws2)
      | (Res.err ep, ws1) => (Res.err (ep.1, Term.sup ep.2 snd), ws1)
      | (Res.panic m, ws1) => (Res.panic m, ws1)
  | Term.opx op fst snd =>
      match Term.extract_adt_matches fst def_name builtin ctrs match_count with
      | (Res.ok (fst2, nd1, c1), ws1) =>
          match Term.extract_adt_matches snd def_name builtin ctrs c1 with
          | (Res.ok (snd2, nd2, c2), ws2) =>
              (Res.ok (Term.opx op fst2 snd2, nd1 ++ nd2, c2), ws1 ++ ws2)
          | (Res.err ep, ws2) => (Res.err (ep.1, Term.opx op fst2 ep.2), ws1 ++ ws2)
          | (Res.panic m, ws2) => (Res.panic m, ws1 ++ ws2)
      | (Res.err ep, ws1) => (Res.err (ep.1, Term.opx op ep.2 snd), ws1)
      | (Res.panic m, ws1) => (Res.panic m, ws1)
  | Term.var n => (Res.ok (Term.var n, [], match_count), [])
  | Term.lnk n => (Res.ok (Term.lnk n, [], match_count), [])
  | Term.num v => (Res.ok (Term.num v, [], match_count), [])
  | Term.str v => (Res.ok (Term.str v, [], match_count), [])
  | Term.ref n => (Res.ok (Term.ref n, [], match_count), [])
  | Term.era => (Res.ok (Term.era, [], match_count), [])
  | Term.err => (Res.ok (Term.err, [], match_count), [])
  | Term.lst _ => (Res.panic "internal error: entered unreachable code", [])
  | Term.mat _ _ =>
      (Res.panic "Scrutinee of match expression should have been extracted already", [])
  | Term.letE _ _ _ =>
      (Res.panic "Destructor let expression should have been desugared already", [])

/-- The `for (_, term) in arms.iter_mut()` loop of `Term::extract_adt_matches`
over a match's arms, left to right.  On failure the error carries the
partially rewritten arms, as the in-place mutation leaves them. -/
def Arms.extract_adt_matches (arms : Arms) (def_name : Name) (builtin : Bool) (ctrs : Ctrs)
    (match_count : Nat) :
    Res (MatchError × Arms) (Arms × List (Name × Definition) × Nat) × List Warning :=
  match arms with
  | Arms.nil => (Res.ok (Arms.nil, [], match_count), [])
  | Arms.cons p b rest =>
      match Term.extract_adt_matches b def_name builtin ctrs match_count with
      | (Res.ok (b2, nd1, c1), ws1) =>
          match Arms.extract_adt_matches rest def_name builtin ctrs c1 with
          | (Res.ok (rest2, nd2, c2), ws2) => (Res.ok (Arms.cons p b2 rest2, nd1 ++ nd2, c2), ws1 ++ ws2)
          | (Res.err ep, ws2) => (Res.err (ep.1, Arms.cons p b2 ep.2), ws1 ++ ws2)
          | (Res.panic m, ws2) => (Res.panic m, ws1 ++ ws2)
      | (Res.err ep, ws1) => (Res.err (ep.1, Arms.cons p ep.2 rest), ws1)
      | (Res.panic m, ws1) => (Res.panic m, ws1)
end

/-- Result of processing the list of rules of one definition.  On `err` the
rules rewritten before the failure keep their rewrites, the failing rule
keeps the partially rewritten body that the in-place mutation leaves in it,
and the rules after it are untouched; definitions synthesized before the
failure are dropped by the caller. -/
inductive RulesRes where
  | ok (rules : List Rule) (new_defs : List (Name × Definition)) (ws : List Warning)
  | err (rules : List Rule) (ws : List Warning) (msg : String)
  | panic (msg : String)

/-- The `for rule in def.rules.iter_mut()` loop of `Book::extract_adt_matches`
for one definition: every rule's body is rewritten with a fresh `&mut 0` match
counter, and a `MatchError` is formatted as
`In definition '{def_name}': {e}` at once (the `map_err` at the call site). -/
def runRules (def_name : Name) (builtin : Bool) (ctrs : Ctrs) : List Rule → RulesRes
  | [] => RulesRes.ok [] [] []
  | r :: rs =>
      match Term.extract_adt_matches r.body def_name builtin ctrs 0 with
      | (Res.ok (t2, nd1, _c), ws1) =>
          match runRules def_name builtin ctrs rs with
          | RulesRes.ok rs2 nd2 ws2 =>
              RulesRes.ok ({ pats := r.pats, body := t2 } :: rs2) (nd1 ++ nd2) (ws1 ++ ws2)
          | RulesRes.err rs2 ws2 m =>
              RulesRes.err ({ pats := r.pats, body := t2 } :: rs2) (ws1 ++ ws2) m
          | RulesRes.panic m => RulesRes.panic m
      | (Res.err ep, ws1) =>
          RulesRes.err ({ pats := r.pats, body := ep.2 } :: rs) ws1
            ("In definition '" ++ def_name ++ "': " ++ ep.1.display)
      | (Res.panic m, _ws1) => RulesRes.panic m

/-- Result of the `for (def_name, def) in &mut self.defs` loop: the rewritten
definition entries, the accumulated `new_defs`, and the accumulated warnings;
on `err`, the entries processed so far keep their rewrites and the rest are
untouched. -/
inductive DefsRes where
  | ok (defs : List (Name × Definition)) (new_defs : List (Name × Definition)) (ws : List Warning)
  | err (defs : List (Name × Definition)) (ws : List Warning) (msg : String)
  | panic (msg : String)

/-- The definition loop of `Book::extract_adt_matches`. -/
def runDefs (ctrs : Ctrs) : List (Name × Definition) → DefsRes
  | [] => DefsRes.ok [] [] []
  | (n, d) :: ds =>
      match runRules n d.builtin ctrs d.rules with
      | RulesRes.ok rules2 nd1 ws1 =>
          match runDefs ctrs ds with
          | DefsRes.ok ds2 nd2 ws2 =>
              DefsRes.ok ((n, { d with rules := rules2 }) :: ds2) (nd1 ++ nd2) (ws1 ++ ws2)
          | DefsRes.err ds2 ws2 m =>
              DefsRes.err ((n, { d with rules := rules2 }) :: ds2) (ws1 ++ ws2) m
          | DefsRes.panic m => DefsRes.panic m
      | RulesRes.err rules2 ws1 m => DefsRes.err ((n, { d with rules := rules2 }) :: ds) ws1 m
      | RulesRes.panic m => DefsRes.panic m

/-- The `IndexMap::insert` semantics: replace the value of an existing key in
place, otherwise append the new entry at the end. -/
def insertRep : List (Name × Definition) → Name → Definition → List (Name × Definition)
  | [], n, d => [(n, d)]
  | (k, v) :: t, n, d => if k = n then (k, d) :: t else (k, v) :: insertRep t n d

/-- The `self.defs.extend(new_defs)`: insert every synthesized definition in
order, with `IndexMap::insert` semantics. -/
def extendDefs (base : List (Name × Definition)) : List (Name × Definition) → List (Name × Definition)
  | [] => base
  | (n, d) :: rest => extendDefs (insertRep base n d) rest

/-- Result of the whole stage on a `Book`.  `ok` and `err` carry the book as
left by the in-place mutation together with the warnings accumulated in the
caller-supplied `&mut Vec<Warning>`; a panic aborts the process. -/
inductive BookRes where
  | ok (book : Book) (ws : List Warning)
  | err (book : Book) (ws : List Warning) (msg : String)
  | panic (msg : String)

/-- Warnings visible to the caller after the stage runs (empty after a
panic, which aborts the process). -/
def BookRes.warningsOf : BookRes → List Warning
  | BookRes.ok _ ws => ws
  | BookRes.err _ ws _ => ws
  | BookRes.panic _ => []

/-- Whether the stage returned an error string. -/
def BookRes.isErr : BookRes → Bool
  | BookRes.err _ _ _ => true
  | _ => false

/-- Whether the stage hit a `panic!`-family macro. -/
def BookRes.isPanic : BookRes → Bool
  | BookRes.panic _ => true
  | _ => false

/-- The `Book::extract_adt_matches`: rewrite every rule body of every definition,
then extend the definition table with the synthesized definitions (only on
success — the `?` operator returns before `self.defs.extend(new_defs)`). -/
def Book.extract_adt_matches (book : Book) : BookRes :=
  match runDefs book.ctrs book.defs with
  | DefsRes.ok ds nd ws => BookRes.ok { defs := extendDefs ds nd, ctrs := book.ctrs } ws
  | DefsRes.err ds ws m => BookRes.err { defs := ds, ctrs := book.ctrs } ws m
  | DefsRes.panic m => BookRes.panic m

/-! ## Auxiliary predicates and projections used to state the claims -/

/-- Whether a pattern is a variable binder (`matches!(pat, Pattern::Var(..))`). -/
def isVarPat : Pattern → Bool
  | Pattern.var _ => true
  | _ => false

/-- Whether classifying this pattern cannot panic: a constructor pattern must
have its constructor registered in the constructor table (spec §4.2: "the
table lookup cannot fail for well-formed input"). -/
def patTypeOk (p : Pattern) (ctrs : Ctrs) : Bool :=
  match p with
  | Pattern.ctr n _ => (ctrs.lookup n).isSome
  | _ => true

/-- Predicate: `needle` occurs contiguously inside `hay`. -/
def strContains (hay needle : String) : Prop :=
  List.IsInfix needle.data hay.data

mutual
/-- The preconditions claim C9 quotes from the spec, as a predicate on one
term: no destructuring `let`, no list literals, and every match scrutinee a
bare variable.  (It deliberately does not exclude the error placeholder.) -/
def Term.precondOk : Term → Bool
  | Term.var _ | Term.lnk _ | Term.num _ | Term.str _ | Term.ref _ | Term.era | Term.err => true
  | Term.lam _ bod => Term.precondOk bod
  | Term.chn _ bod => Term.precondOk bod
  | Term.app fn arg => Term.precondOk fn && Term.precondOk arg
  | Term.letE (Pattern.var _) v n => Term.precondOk v && Term.precondOk n
  | Term.letE _ _ _ => false
  | Term.dup _ _ v n => Term.precondOk v && Term.precondOk n
  | Term.tup f s => Term.precondOk f && Term.precondOk s
  | Term.sup f s => Term.precondOk f && Term.precondOk s
  | Term.opx _ f s => Term.precondOk f && Term.precondOk s
  | Term.lst _ => false
  | Term.mat (Term.var _) arms => Arms.precondOk arms
  | Term.mat _ _ => false

/-- C9's preconditions over the arms of a match. -/
def Arms.precondOk : Arms → Bool
  | Arms.nil => true
  | Arms.cons _ bd rest => Term.precondOk bd && Arms.precondOk rest
end

/-- C9's preconditions over a whole book: they hold of every rule body. -/
def Book.precondOk (book : Book) : Bool :=
  book.defs.all fun nd => nd.2.rules.all fun r => r.body.precondOk

mutual
/-- Sufficient condition for `Term::extract` not to panic on a term (and to
keep not panicking on its output): C9's preconditions, every constructor
pattern registered, and additionally no error-placeholder term at all (the
`Term::Err` arm of `Term::extract` is `todo!()`). -/
def Term.extractSafe (ctrs : Ctrs) : Term → Bool
  | Term.var _ | Term.lnk _ | Term.num _ | Term.str _ | Term.ref _ | Term.era => true
  | Term.err => false
  | Term.lam _ bod => Term.extractSafe ctrs bod
  | Term.chn _ bod => Term.extractSafe ctrs bod
  | Term.app fn arg => Term.extractSafe ctrs fn && Term.extractSafe ctrs arg
  | Term.letE (Pattern.var _) v n => Term.extractSafe ctrs v && Term.extractSafe ctrs n
  | Term.letE _ _ _ => false
  | Term.dup _ _ v n => Term.extractSafe ctrs v && Term.extractSafe ctrs n
  | Term.tup f s => Term.extractSafe ctrs f && Term.extractSafe ctrs s
  | Term.sup f s => Term.extractSafe ctrs f && Term.extractSafe ctrs s
  | Term.opx _ f s => Term.extractSafe ctrs f && Term.extractSafe ctrs s
  | Term.lst _ => false
  | Term.mat (Term.var _) arms =>
      Arms.extractSafe ctrs arms && (Arms.pats arms).all (patTypeOk · ctrs)
  | Term.mat _ _ => false

/-- The `Term.extractSafe` over the arm bodies of a match. -/
def Arms.extractSafe (ctrs : Ctrs) : Arms → Bool
  | Arms.nil => true
  | Arms.cons _ bd rest => Term.extractSafe ctrs bd && Arms.extractSafe ctrs rest
end

mutual
/-- Sufficient condition for `Term::extract_adt_matches` not to panic on a
term: C9's preconditions, registered constructor patterns, and no
error-placeholder anywhere inside a match-on-variable subtree (outside match
subtrees the walker treats `Term::Err` as a leaf and never panics on it). -/
def Term.walkSafe (ctrs : Ctrs) : Term → Bool
  | Term.var _ | Term.lnk _ | Term.num _ | Term.str _ | Term.ref _ | Term.era | Term.err => true
  | Term.lam _ bod => Term.walkSafe ctrs bod
  | Term.chn _ bod => Term.walkSafe ctrs bod
  | Term.app fn arg => Term.walkSafe ctrs fn && Term.walkSafe ctrs arg
  | Term.letE (Pattern.var _) v n => Term.walkSafe ctrs v && Term.walkSafe ctrs n
  | Term.letE _ _ _ => false
  | Term.dup _ _ v n => Term.walkSafe ctrs v && Term.walkSafe ctrs n
  | Term.tup f s => Term.walkSafe ctrs f && Term.walkSafe ctrs s
  | Term.sup f s => Term.walkSafe ctrs f && Term.walkSafe ctrs s
  | Term.opx _ f s => Term.walkSafe ctrs f && Term.walkSafe ctrs s
  | Term.lst _ => false
  | Term.mat (Term.var x) arms => Term.extractSafe ctrs (Term.mat (Term.var x) arms)
  | Term.mat _ _ => false

/-- The `Term.walkSafe` over the arm bodies of a match. -/
def Arms.walkSafe (ctrs : Ctrs) : Arms → Bool
  | Arms.nil => true
  | Arms.cons _ bd rest => Term.walkSafe ctrs bd && Arms.walkSafe ctrs rest
end

/-- The `Term.walkSafe` over a whole book: it holds of every rule body. -/
def Book.walkSafeB (book : Book) : Bool :=
  book.defs.all fun nd => nd.2.rules.all fun r => Term.walkSafe book.ctrs r.body

/-- The names of the definitions synthesized by the traversal (empty after a
failure, since they are discarded, or a panic). -/
def DefsRes.newNames : DefsRes → List Name
  | DefsRes.ok _ nd _ => nd.map Prod.fst
  | _ => []

/-- The definition names of the book left by the stage. -/
def BookRes.defNames : BookRes → List Name
  | BookRes.ok b _ => b.defs.map Prod.fst
  | BookRes.err b _ _ => b.defs.map Prod.fst
  | BookRes.panic _ => []

/-- Look a definition up by name in the book left by the stage. -/
def BookRes.findDef (r : BookRes) (n : Name) : Option Definition :=
  match r with
  | BookRes.ok b _ => b.defs.lookup n
  | BookRes.err b _ _ => b.defs.lookup n
  | BookRes.panic _ => Option.none

/-- The safety invariant carried through `Term::extract` results: never a
panic, and a successful rewrite is again `extractSafe`. -/
def ExtractSafeRes (ctrs : Ctrs) :
    Res (MatchError × Term) (Term × List (Name × Definition) × Nat) → Prop
  | Res.ok (t2, _, _) => Term.extractSafe ctrs t2 = true
  | Res.err _ => True
  | Res.panic _ => False

/-- The safety invariant carried through the arm loop of `Term::extract`. -/
def ArmsExtractSafeRes (ctrs : Ctrs) :
    Res (MatchError × Arms) (Arms × List (Name × Definition) × Nat) → Prop
  | Res.ok (arms2, _, _) => Arms.extractSafe ctrs arms2 = true
  | Res.err _ => True
  | Res.panic _ => False

/-- The safety invariant carried through `Term::extract_adt_matches` results
when the input is fully `extractSafe`. -/
def WalkPreserveRes (ctrs : Ctrs) :
    Res (MatchError × Term) (Term × List (Name × Definition) × Nat) × List Warning → Prop
  | (Res.ok (t2, _, _), _) => Term.extractSafe ctrs t2 = true
  | (Res.err _, _) => True
  | (Res.panic _, _) => False

/-- The safety invariant carried through the arm loop of
`Term::extract_adt_matches` when the input is fully `extractSafe`. -/
def ArmsWalkPreserveRes (ctrs : Ctrs) :
    Res (MatchError × Arms) (Arms × List (Name × Definition) × Nat) × List Warning → Prop
  | (Res.ok (arms2, _, _), _) => Arms.extractSafe ctrs arms2 = true
  | (Res.err _, _) => True
  | (Res.panic _, _) => False

/-- The walker result is not a panic. -/
def NoPanicRes {ε α : Type} : Res ε α × List Warning → Prop
  | (Res.panic _, _) => False
  | _ => True

/-! ## Fixed-point predicates for the idempotence claim -/

/-- Predicate: `t` is a fixed point of `Term::extract`: re-extracting it changes nothing,
synthesizes nothing and leaves the counter alone. -/
def EFix (ctrs : Ctrs) (t : Term) : Prop :=
  ∀ d b c, Term.extract t d b ctrs c = Res.ok (t, [], c)

/-- Predicate: `arms` is a fixed point of the arm loop of `Term::extract`. -/
def AEFix (ctrs : Ctrs) (arms : Arms) : Prop :=
  ∀ d b c, Arms.extract arms d b ctrs c = Res.ok (arms, [], c)

/-- Predicate: `t` is a fixed point of `Term::extract_adt_matches`: re-walking it changes
nothing and synthesizes nothing (warnings may be re-emitted). -/
def WFix (ctrs : Ctrs) (t : Term) : Prop :=
  ∀ d b c, ∃ ws, Term.extract_adt_matches t d b ctrs c = (Res.ok (t, [], c), ws)

/-- Predicate: `arms` is a fixed point of the arm loop of `Term::extract_adt_matches`. -/
def AWFix (ctrs : Ctrs) (arms : Arms) : Prop :=
  ∀ d b c, ∃ ws, Arms.extract_adt_matches arms d b ctrs c = (Res.ok (arms, [], c), ws)

/-- Every rule body of every definition in the list is a fixed point of both
traversals. -/
def DefsFix (ctrs : Ctrs) (nd : List (Name × Definition)) : Prop :=
  ∀ p ∈ nd, ∀ r ∈ (Prod.snd p).rules, EFix ctrs r.body ∧ WFix ctrs r.body

/-- Every arm body is a fixed point of both traversals. -/
def BodiesFix (ctrs : Ctrs) (arms : Arms) : Prop :=
  ∀ pb ∈ arms.toList, EFix ctrs (Prod.snd pb) ∧ WFix ctrs (Prod.snd pb)

/-! ## Concrete programs used as witnesses and counterexamples -/

/-- The tuple pattern `(a, b)`. -/
def aPat : Pattern := Pattern.tup (Pattern.var (some "a")) (Pattern.var (some "b"))

/-- Single arm `(a, b) => a`. -/
def aArms : Arms := Arms.cons aPat (Term.var "a") Arms.nil

/-- Arms `a => 1; (a, b) => 2`: a variable pattern first, a tuple pattern
second. -/
def c2Arms : Arms :=
  Arms.cons (Pattern.var (some "a")) (Term.num 1) (Arms.cons aPat (Term.num 2) Arms.nil)

/-- Rule with body `match x { (a, b) => a }`. -/
def rTup1 : Rule := { pats := [], body := Term.mat (Term.var "x") aArms }

/-- The tuple pattern `(c, d)`. -/
def bPat : Pattern := Pattern.tup (Pattern.var (some "c")) (Pattern.var (some "d"))

/-- Single arm `(c, d) => d`. -/
def bArms : Arms := Arms.cons bPat (Term.var "d") Arms.nil

/-- Rule with body `match y { (c, d) => d }`. -/
def rTup2 : Rule := { pats := [], body := Term.mat (Term.var "y") bArms }

/-- A book with one definition `Foo` holding two rules, each body an
extractable tuple match. -/
def cBook1 : Book :=
  { defs := [("Foo", { name := "Foo", rules := [rTup1, rTup2], builtin := false })], ctrs := [] }

/-- The `match y { (p, q) => 1; 5 => 2 }`: a tuple pattern against a numeric
pattern, a hard shape mismatch. -/
def innerBad : Term :=
  Term.mat (Term.var "y")
    (Arms.cons (Pattern.tup (Pattern.var (some "p")) (Pattern.var (some "q"))) (Term.num 1)
      (Arms.cons (Pattern.num 5) (Term.num 2) Arms.nil))

/-- Arms `a => innerBad; b => 3`: all-variable patterns whose first body
contains a type-mismatched match. -/
def outerArms : Arms :=
  Arms.cons (Pattern.var (some "a")) innerBad
    (Arms.cons (Pattern.var (some "b")) (Term.num 3) Arms.nil)

/-- Rule with body `match x { a => innerBad; b => 3 }`. -/
def cRule8 : Rule := { pats := [], body := Term.mat (Term.var "x") outerArms }

/-- Definition `Foo` holding `cRule8`. -/
def cDef8 : Definition := { name := "Foo", rules := [cRule8], builtin := false }

/-- A book whose single definition warns (all-variable match) and then fails
(nested mismatched match) while processing the first arm body. -/
def cBook8 : Book := { defs := [("Foo", cDef8)], ctrs := [] }

/-- `match b { (p, q) => 1; 5 => 2 }`: a hard shape mismatch. -/
def mismatchB : Term :=
  Term.mat (Term.var "b")
    (Arms.cons (Pattern.tup (Pattern.var (some "p")) (Pattern.var (some "q"))) (Term.num 1)
      (Arms.cons (Pattern.num 5) (Term.num 2) Arms.nil))

/-- Rule with body `(match a { (a, b) => a }, match b { (p, q) => 1; 5 => 2 })`:
the first tuple component is extracted before the second raises the `Infer`
error, so the failing rule is left partially rewritten. -/
def cRule5 : Rule := { pats := [], body := Term.tup (Term.mat (Term.var "a") aArms) mismatchB }

/-- Definition `Foo` holding `cRule5`. -/
def cDef5 : Definition := { name := "Foo", rules := [cRule5], builtin := false }

/-- The partially rewritten body the in-place mutation leaves in `cRule5`
when the second tuple component fails: the first match already replaced by a
call to the (discarded) `Foo$match$1`. -/
def tp5 : Term := Term.tup (Term.app (Term.ref "Foo$match$1") (Term.var "a")) mismatchB

/-- A book whose single definition holds `match x { a => <error placeholder> }`:
it satisfies C9's quoted preconditions yet reaches `todo!()`. -/
def cBook9 : Book :=
  { defs := [("Foo",
      { name := "Foo",
        rules := [{ pats := [],
                    body := Term.mat (Term.var "x")
                      (Arms.cons (Pattern.var (some "a")) Term.err Arms.nil) }],
        builtin := false })],
    ctrs := [] }

/-- A book whose single definition holds `match x { a => match y { (a, b) => a } }`:
a single-variable-arm match whose arm body contains an extractable match. -/
def cBook6 : Book :=
  { defs := [("Foo",
      { name := "Foo",
        rules := [{ pats := [],
                    body := Term.mat (Term.var "x")
                      (Arms.cons (Pattern.var (some "a")) (Term.mat (Term.var "y") aArms)
                        Arms.nil) }],
        builtin := false })],
    ctrs := [] }

/-- Constructor table registering `Nil` and `Cons` under the ADT `List`. -/
def listCtrs : Ctrs := [("Nil", "List"), ("Cons", "List")]

/-- Arms `Nil => 0; Cons(h, t) => h`. -/
def listArms : Arms :=
  Arms.cons (Pattern.ctr "Nil" []) (Term.num 0)
    (Arms.cons (Pattern.ctr "Cons" [Pattern.var (some "h"), Pattern.var (some "t")]) (Term.var "h")
      Arms.nil)

/-- Scenario-D arms `a => 1; b => 2`: two variable-binder arms. -/
def wArms : Arms :=
  Arms.cons (Pattern.var (some "a")) (Term.num 1)
    (Arms.cons (Pattern.var (some "b")) (Term.num 2) Arms.nil)

/-- A one-definition book with a single extractable tuple match. -/
def cBookW : Book :=
  { defs := [("Foo", { name := "Foo", rules := [rTup1], builtin := false })], ctrs := [] }

/-- The output of the stage on `cBookW`: the match site replaced by a call and
the synthesized dispatch definition appended. -/
def cBookW2 : Book :=
  { defs := [("Foo",
      { name := "Foo",
        rules := [{ pats := [], body := Term.app (Term.ref "Foo$match$1") (Term.var "x") }],
        builtin := false }),
      ("Foo$match$1",
      { name := "Foo$match$1", rules := [{ pats := [aPat], body := Term.var "a" }],
        builtin := false })],
    ctrs := [] }

/-! ## Basic lemmas -/

/-- Every `Definition` is exactly its three fields: the record carries no
further component (in particular no provenance tag). -/
theorem definition_eq_fields (d : Definition) :
    d = { name := d.name, rules := d.rules, builtin := d.builtin } := rfl

/-- The arm loop of `Term::extract` preserves the arms' patterns. -/
theorem pats_of_armsExtract : ∀ (arms : Arms) (d : Name) (b : Bool) (ctrs : Ctrs) (c : Nat)
    (arms2 : Arms) (nd : List (Name × Definition)) (c2 : Nat),
    Arms.extract arms d b ctrs c = Res.ok (arms2, nd, c2) → arms2.pats = arms.pats
  | Arms.nil, d, b, ctrs, c, arms2, nd, c2, h => by
      simp [Arms.extract] at h
      simp [h.1]
  | Arms.cons p bd rest, d, b, ctrs, c, arms2, nd, c2, h => by
      simp only [Arms.extract] at h
      split at h
      · split at h
        · next rest2 nd2 c2' hr =>
            simp at h
            obtain ⟨ha, -, -⟩ := h
            subst ha
            simp [Arms.pats, pats_of_armsExtract rest d b ctrs _ rest2 nd2 c2' hr]
        · exact absurd h (by simp)
        · exact absurd h (by simp)
      · exact absurd h (by simp)
      · exact absurd h (by simp)

/-- The arm loop of `Term::extract_adt_matches` preserves the arms' patterns. -/
theorem pats_of_armsWalk : ∀ (arms : Arms) (d : Name) (b : Bool) (ctrs : Ctrs) (c : Nat)
    (arms2 : Arms) (nd : List (Name × Definition)) (c2 : Nat) (ws : List Warning),
    Arms.extract_adt_matches arms d b ctrs c = (Res.ok (arms2, nd, c2), ws) → arms2.pats = arms.pats
  | Arms.nil, d, b, ctrs, c, arms2, nd, c2, ws, h => by
      simp [Arms.extract_adt_matches] at h
      simp [h.1.1]
  | Arms.cons p bd rest, d, b, ctrs, c, arms2, nd, c2, ws, h => by
      simp only [Arms.extract_adt_matches] at h
      split at h
      · split at h
        · next rest2 nd2 c2' ws2 hr =>
            simp at h
            obtain ⟨⟨ha, -, -⟩, -⟩ := h
            subst ha
            simp [Arms.pats, pats_of_armsWalk rest d b ctrs _ rest2 nd2 c2' ws2 hr]
        · exact absurd h (by simp)
        · exact absurd h (by simp)
      · exact absurd h (by simp)
      · exact absurd h (by simp)

/-- A variable-binder pattern never fails classification. -/
theorem patTypeOk_of_var (p : Pattern) (ctrs : Ctrs) (h : isVarPat p = true) :
    patTypeOk p ctrs = true := by
  cases p <;> simp_all [isVarPat, patTypeOk]

/-- A pattern whose classification cannot panic classifies to some shape. -/
theorem to_type_ok (p : Pattern) (ctrs : Ctrs) (h : patTypeOk p ctrs = true) :
    ∃ mt, p.to_type ctrs = Res.ok mt := by
  cases p with
  | ctr n args =>
      simp [patTypeOk, Option.isSome_iff_exists] at h
      obtain ⟨adt, hadt⟩ := h
      exact ⟨MType.adt adt, by simp [Pattern.to_type, hadt]⟩
  | var n => exact ⟨MType.any, rfl⟩
  | num v => exact ⟨MType.num, rfl⟩
  | tup a b => exact ⟨MType.tup, rfl⟩

/-- An accumulated `Any` absorbs every incoming shape (the `(_, Type::Any)`
arm of the unification fold). -/
theorem unifyStep_any_acc (new : MType) : unifyStep new MType.any = Res.ok MType.any := by
  cases new <;> rfl

/-- Once the accumulator is `Any`, the fold stays at `Any` (provided no
classification panics). -/
theorem inferGo_any : ∀ (ps : List Pattern) (ctrs : Ctrs),
    (∀ p ∈ ps, patTypeOk p ctrs = true) → inferGo ps ctrs MType.any = Res.ok MType.any
  | [], ctrs, _ => rfl
  | p :: ps, ctrs, h => by
      obtain ⟨mt, hmt⟩ := to_type_ok p ctrs (h p (by simp))
      simp only [inferGo, hmt, unifyStep_any_acc]
      exact inferGo_any ps ctrs fun q hq => h q (by simp [hq])

/-- A pattern list that starts with a variable binder infers `Any` whatever
follows (provided no classification panics). -/
theorem infer_var_first (n : Option Name) (rest : List Pattern) (ctrs : Ctrs)
    (h : ∀ p ∈ rest, patTypeOk p ctrs = true) :
    infer_match_type (Pattern.var n :: rest) ctrs = Res.ok MType.any := by
  simp only [infer_match_type, inferGo, Pattern.to_type, unifyStep]
  exact inferGo_any rest ctrs h

/-- All-variable patterns infer `Any`, or `Unknown` when there are none. -/
theorem infer_allVars (pats : List Pattern) (ctrs : Ctrs)
    (h : ∀ p ∈ pats, isVarPat p = true) :
    (pats = [] ∧ infer_match_type pats ctrs = Res.ok MType.none) ∨
      infer_match_type pats ctrs = Res.ok MType.any := by
  cases pats with
  | nil => exact Or.inl ⟨rfl, rfl⟩
  | cons p ps =>
      have hp := h p (by simp)
      cases p <;> simp [isVarPat] at hp
      exact Or.inr (infer_var_first _ ps ctrs fun q hq =>
        patTypeOk_of_var q ctrs (h q (by simp [hq])))

/-- Holding `allVarPats` means every pattern of the arms is a variable binder. -/
theorem allVarPats_pats : ∀ (arms : Arms), arms.allVarPats = true →
    ∀ p ∈ arms.pats, isVarPat p = true
  | Arms.nil, _, p, hp => by simp [Arms.pats] at hp
  | Arms.cons q bd rest, h, p, hp => by
      cases q <;> simp [Arms.allVarPats] at h
      simp [Arms.pats] at hp
      rcases hp with hp | hp
      · subst hp; rfl
      · exact allVarPats_pats rest h p hp

/-- The `Infer` message renders both offending shapes. -/
theorem inferErr_contains (a b : MType) :
    ∃ msg, inferErr a b = MatchError.infer msg ∧ strContains msg a.show ∧ strContains msg b.show := by
  refine ⟨_, rfl, ?_, ?_⟩
  · exact ⟨"Type mismatch. Found '".data, "' expected ".data ++ b.show.data ++ ".".data, by
      simp [String.data_append]⟩
  · exact ⟨"Type mismatch. Found '".data ++ a.show.data ++ "' expected ".data, ".".data, by
      simp [String.data_append]⟩

/-! ## Claim C2 -/

/-- Claim C2 (as stated, refuted at a concrete input): the claim says
`unify(Any, T) = T`, so `a => 1; (a, b) => 2` should infer `Tuple` and be
extracted; the code instead keeps `Any` (the `(_, Type::Any)` arm
short-circuits) and leaves the match in place. -/
theorem c2_counterexample :
    infer_match_type [Pattern.var (some "a"), aPat] [] = Res.ok MType.any ∧
    Term.extract (Term.mat (Term.var "x") c2Arms) "Foo" false [] 0 =
      Res.ok (Term.mat (Term.var "x") c2Arms, [], 0) := ⟨rfl, rfl⟩

/-- Claim C2 (amended): an accumulated `Any` absorbs every next classified type
— `unify(Any, T) = Any` for every `T` — so a match whose first arm pattern is
a variable binder infers `Any` whatever the later arm patterns are (provided
their constructors are registered), and is therefore never extracted. -/
theorem c2_any_absorbs :
    (∀ new : MType, unifyStep new MType.any = Res.ok MType.any) ∧
    (∀ (n : Option Name) (rest : List Pattern) (ctrs : Ctrs),
      (∀ p ∈ rest, patTypeOk p ctrs = true) →
      infer_match_type (Pattern.var n :: rest) ctrs = Res.ok MType.any) :=
  ⟨unifyStep_any_acc, infer_var_first⟩

/-- Claim C2 witness: the amended theorem applied to the variable-then-tuple
pattern list. -/
theorem c2_any_absorbs_witness :
    (∀ p ∈ [aPat], patTypeOk p ([] : Ctrs) = true) ∧
    infer_match_type (Pattern.var (some "a") :: [aPat]) [] = Res.ok MType.any :=
  ⟨by decide, c2_any_absorbs.2 (some "a") [aPat] [] (by decide)⟩

/-! ## Claim C5 -/

/-- Claim C5: on any hard shape mismatch the unification fold returns an
`Infer` error whose message names both conflicting shapes, and the stage
surfaces the error to the caller as a string prefixed with the offending
definition's name (shown here for a one-definition book whose single rule's
traversal raises the error; the failing rule's body is left as the in-place
mutation leaves it — partially rewritten — and the synthesized definitions
are discarded). -/
theorem c5_infer_error (tNew tOld : MType)
    (hmis : (tNew = MType.tup ∧ tOld = MType.num) ∨ (tNew = MType.num ∧ tOld = MType.tup) ∨
      (tNew = MType.tup ∧ ∃ a, tOld = MType.adt a) ∨
      ((∃ a, tNew = MType.adt a) ∧ tOld = MType.tup) ∨
      (tNew = MType.num ∧ ∃ a, tOld = MType.adt a) ∨
      ((∃ a, tNew = MType.adt a) ∧ tOld = MType.num) ∨
      (∃ a b, a ≠ b ∧ tNew = MType.adt a ∧ tOld = MType.adt b))
    (n : Name) (df : Definition) (r : Rule) (ctrs : Ctrs) (m : String) (tp : Term)
    (hrules : df.rules = [r])
    (hw : (Term.extract_adt_matches r.body n df.builtin ctrs 0).1 =
      Res.err (MatchError.infer m, tp)) :
    (∃ msg, unifyStep tNew tOld = Res.err (MatchError.infer msg) ∧
      strContains msg tNew.show ∧ strContains msg tOld.show) ∧
    Book.extract_adt_matches { defs := [(n, df)], ctrs := ctrs } =
      BookRes.err
        { defs := [(n, { df with rules := [{ pats := r.pats, body := tp }] })], ctrs := ctrs }
        (Term.extract_adt_matches r.body n df.builtin ctrs 0).2
        ("In definition '" ++ n ++ "': " ++ m) := by
  constructor
  · have hstep : unifyStep tNew tOld = Res.err (inferErr tNew tOld) := by
      rcases hmis with ⟨h1, h2⟩ | ⟨h1, h2⟩ | ⟨h1, a, h2⟩ | ⟨⟨a, h1⟩, h2⟩ | ⟨h1, a, h2⟩ |
        ⟨⟨a, h1⟩, h2⟩ | ⟨a, b2, hab, h1, h2⟩ <;> subst h1 <;> subst h2
      · rfl
      · rfl
      · rfl
      · rfl
      · rfl
      · rfl
      · simp [unifyStep, hab]
    obtain ⟨msg, hmsg, h1, h2⟩ := inferErr_contains tNew tOld
    exact ⟨msg, by rw [hstep, hmsg], h1, h2⟩
  · cases hW : Term.extract_adt_matches r.body n df.builtin ctrs 0 with
    | mk res ws =>
        rw [hW] at hw
        simp at hw
        subst hw
        simp [Book.extract_adt_matches, runDefs, runRules, hrules, hW, MatchError.display]

/-- Claim C5 witness: the numeric-vs-tuple mismatch in the second component
of `cRule5`'s tuple body, surfaced as `In definition 'Foo': ...`; the
post-error book keeps only `Foo`, whose failing rule's body is the partially
rewritten `tp5` (its first match already calls the discarded
`Foo$match$1`). -/
theorem c5_infer_error_witness :
    cDef5.rules = [cRule5] ∧
    (Term.extract_adt_matches cRule5.body "Foo" cDef5.builtin [] 0).1 =
      Res.err (MatchError.infer "Type mismatch. Found 'Numeric' expected Tuple.", tp5) ∧
    ((∃ msg, unifyStep MType.num MType.tup = Res.err (MatchError.infer msg) ∧
      strContains msg MType.num.show ∧ strContains msg MType.tup.show) ∧
    Book.extract_adt_matches { defs := [("Foo", cDef5)], ctrs := [] } =
      BookRes.err
        { defs := [("Foo", { cDef5 with rules := [{ pats := cRule5.pats, body := tp5 }] })],
          ctrs := [] }
        (Term.extract_adt_matches cRule5.body "Foo" cDef5.builtin [] 0).2
        ("In definition '" ++ "Foo" ++ "': " ++
          "Type mismatch. Found 'Numeric' expected Tuple.")) :=
  ⟨rfl, rfl,
    c5_infer_error MType.num MType.tup (Or.inr (Or.inl ⟨rfl, rfl⟩)) "Foo" cDef5 cRule5 [] _
      tp5 rfl rfl⟩

/-! ## Claim C3 -/

/-- Claim C3: when `Term::extract` succeeds on a match-on-variable, the match is
replaced by a call to a synthesized definition exactly when the unification
fold over its arms' patterns yields `Tup` or `Adt _`; on `None`, `Any` or
`Num` the term stays a match on the same variable with the same arm patterns
and the already-rewritten arm bodies, with nothing synthesized for it. -/
theorem c3_extract_decision (x d : Name) (b : Bool) (ctrs : Ctrs) (c : Nat) (arms : Arms)
    (t' : Term) (nd : List (Name × Definition)) (c' : Nat)
    (h : Term.extract (Term.mat (Term.var x) arms) d b ctrs c = Res.ok (t', nd, c')) :
    ∃ arms2 nd1 c1 mt,
      Arms.extract arms d b ctrs c = Res.ok (arms2, nd1, c1) ∧
      arms2.pats = arms.pats ∧
      infer_match_type arms.pats ctrs = Res.ok mt ∧
      ((mt = MType.tup ∨ ∃ a, mt = MType.adt a) ↔ ∃ nm, t' = Term.app (Term.ref nm) (Term.var x)) ∧
      ((mt = MType.none ∨ mt = MType.any ∨ mt = MType.num) →
        t' = Term.mat (Term.var x) arms2 ∧ nd = nd1 ∧ c' = c1) := by
  simp only [Term.extract] at h
  split at h
  · next arms2 nd1 c1 hA =>
      split at h
      · next mt hI =>
          have hpats := pats_of_armsExtract arms d b ctrs c arms2 nd1 c1 hA
          refine ⟨arms2, nd1, c1, mt, hA, hpats, by rw [← hpats]; exact hI, ?_, ?_⟩
          · cases mt with
            | none =>
                simp at h
                constructor
                · intro h'
                  simp at h'
                · intro ⟨nm, hnm⟩
                  rw [← h.1] at hnm
                  simp at hnm
            | any =>
                simp at h
                constructor
                · intro h'
                  simp at h'
                · intro ⟨nm, hnm⟩
                  rw [← h.1] at hnm
                  simp at hnm
            | num =>
                simp at h
                constructor
                · intro h'
                  simp at h'
                · intro ⟨nm, hnm⟩
                  rw [← h.1] at hnm
                  simp at hnm
            | tup =>
                simp [match_to_def] at h
                exact iff_of_true (Or.inl rfl) ⟨_, h.1.symm⟩
            | adt a =>
                simp [match_to_def] at h
                exact iff_of_true (Or.inr ⟨a, rfl⟩) ⟨_, h.1.symm⟩
          · intro hmt
            rcases hmt with hmt | hmt | hmt <;> subst hmt <;> simp at h <;>
              exact ⟨h.1.symm, h.2.1.symm, h.2.2.symm⟩
      · exact absurd h (by simp)
      · exact absurd h (by simp)
  · exact absurd h (by simp)
  · exact absurd h (by simp)

/-- Claim C3 witness: an ADT match (`Nil => 0; Cons(h, t) => h` with both
constructors registered under `List`) is extracted. -/
theorem c3_extract_decision_witness :
    Term.extract (Term.mat (Term.var "x") listArms) "Foo" false listCtrs 0 =
      Res.ok (Term.app (Term.ref "Foo$match$1") (Term.var "x"),
        [("Foo$match$1",
          { name := "Foo$match$1", rules := listArms.toRules, builtin := false })], 1) ∧
    (∃ arms2 nd1 c1 mt,
      Arms.extract listArms "Foo" false listCtrs 0 = Res.ok (arms2, nd1, c1) ∧
      arms2.pats = listArms.pats ∧
      infer_match_type listArms.pats listCtrs = Res.ok mt ∧
      ((mt = MType.tup ∨ ∃ a, mt = MType.adt a) ↔
        ∃ nm, Term.app (Term.ref "Foo$match$1") (Term.var "x") =
          Term.app (Term.ref nm) (Term.var "x")) ∧
      ((mt = MType.none ∨ mt = MType.any ∨ mt = MType.num) →
        Term.app (Term.ref "Foo$match$1") (Term.var "x") = Term.mat (Term.var "x") arms2 ∧
          [("Foo$match$1",
            { name := "Foo$match$1", rules := listArms.toRules, builtin := false })] = nd1 ∧
          (1 : Nat) = c1)) :=
  ⟨rfl, c3_extract_decision "x" "Foo" false listCtrs 0 listArms _ _ _ rfl⟩

/-! ## Claim C4 -/

/-- One rule per arm, in arm order, each with the arm's single pattern and the
arm's body. -/
theorem toRules_eq_map : ∀ arms : Arms,
    arms.toRules = arms.toList.map fun pb => { pats := [pb.1], body := pb.2 }
  | Arms.nil => rfl
  | Arms.cons p bd rest => by
      simp [Arms.toRules, Arms.toList, toRules_eq_map rest]

/-- Claim C4 (as stated, examined at a concrete input): the synthesized
definition produced by `match_to_def` is exhaustively the three-field record
`{name, rules, builtin}` — it carries the origin's builtin flag but stores no
provenance tag ("generated" or otherwise), since the `Definition` record of
this code version has no such field (`definition_eq_fields`). -/
theorem c4_counterexample :
    match_to_def "x" aArms "Foo" false 1 =
      (Term.app (Term.ref "Foo$match$1") (Term.var "x"),
        ("Foo$match$1",
          { name := "Foo$match$1", rules := [{ pats := [aPat], body := Term.var "a" }],
            builtin := false })) := rfl

/-- Claim C4 (amended: no provenance tag exists to set): an extracted match
with scrutinee `x` and `k` (rewritten) arms yields a synthesized definition
with exactly `k` rules in arm order, rule `i` holding the single pattern
`p_i` and body `b_i`, carrying the origin's builtin flag; the match site
becomes an application of a global reference to `{origin}$match${n}` to `x`,
where `n` is the successor of the counter after the arms were processed — in
particular the first extraction in a rule (counter still `0`) uses `n = 1`. -/
theorem c4_synthesized_definition (x d : Name) (b : Bool) (ctrs : Ctrs) (c : Nat) (arms : Arms)
    (t' : Term) (nd : List (Name × Definition)) (c' : Nat)
    (h : Term.extract (Term.mat (Term.var x) arms) d b ctrs c = Res.ok (t', nd, c'))
    (hty : ∃ mt, infer_match_type arms.pats ctrs = Res.ok mt ∧
      (mt = MType.tup ∨ ∃ a, mt = MType.adt a)) :
    ∃ arms2 nd1 c1,
      Arms.extract arms d b ctrs c = Res.ok (arms2, nd1, c1) ∧
      arms2.pats = arms.pats ∧
      c' = c1 + 1 ∧
      t' = Term.app (Term.ref (d ++ "$match$" ++ toString (c1 + 1))) (Term.var x) ∧
      nd = nd1 ++ [(d ++ "$match$" ++ toString (c1 + 1),
        { name := d ++ "$match$" ++ toString (c1 + 1),
          rules := arms2.toList.map fun pb => { pats := [pb.1], body := pb.2 },
          builtin := b })] ∧
      (c1 = 0 → d ++ "$match$" ++ toString (c1 + 1) = d ++ "$match$1") := by
  simp only [Term.extract] at h
  split at h
  · next arms2 nd1 c1 hA =>
      split at h
      · next mt hI =>
          have hpats := pats_of_armsExtract arms d b ctrs c arms2 nd1 c1 hA
          obtain ⟨mt2, hI2, hmt2⟩ := hty
          rw [← hpats] at hI2
          rw [hI] at hI2
          simp at hI2
          subst hI2
          refine ⟨arms2, nd1, c1, hA, hpats, ?_⟩
          have hone : (d ++ "$match$" ++ toString (0 + 1) : String) = d ++ "$match$1" := by
            have : toString (0 + 1 : Nat) = "1" := rfl
            rw [this]
            apply String.ext
            simp [String.data_append]
          rcases hmt2 with hmt | ⟨a, hmt⟩ <;> subst hmt <;>
            simp [match_to_def, toRules_eq_map] at h <;>
            exact ⟨h.2.2.symm, h.1.symm, h.2.1.symm, fun hc1 => by rw [hc1]; exact hone⟩
      · exact absurd h (by simp)
      · exact absurd h (by simp)
  · exact absurd h (by simp)
  · exact absurd h (by simp)

/-- Claim C4 witness: the `List` match of `c3`'s scenario, extracted with
`n = 1`. -/
theorem c4_synthesized_definition_witness :
    Term.extract (Term.mat (Term.var "x") listArms) "Foo" false listCtrs 0 =
      Res.ok (Term.app (Term.ref "Foo$match$1") (Term.var "x"),
        [("Foo$match$1",
          { name := "Foo$match$1", rules := listArms.toRules, builtin := false })], 1) ∧
    infer_match_type listArms.pats listCtrs = Res.ok (MType.adt "List") ∧
    (∃ arms2 nd1 c1,
      Arms.extract listArms "Foo" false listCtrs 0 = Res.ok (arms2, nd1, c1) ∧
      arms2.pats = listArms.pats ∧
      (1 : Nat) = c1 + 1 ∧
      Term.app (Term.ref "Foo$match$1") (Term.var "x") =
        Term.app (Term.ref ("Foo" ++ "$match$" ++ toString (c1 + 1))) (Term.var "x") ∧
      [("Foo$match$1",
        { name := "Foo$match$1", rules := listArms.toRules, builtin := false })] =
        nd1 ++ [("Foo" ++ "$match$" ++ toString (c1 + 1),
          { name := "Foo" ++ "$match$" ++ toString (c1 + 1),
            rules := arms2.toList.map fun pb => { pats := [pb.1], body := pb.2 },
            builtin := false })] ∧
      (c1 = 0 → "Foo" ++ "$match$" ++ toString (c1 + 1) = "Foo" ++ "$match$1")) :=
  ⟨rfl, rfl,
    c4_synthesized_definition "x" "Foo" false listCtrs 0 listArms _ _ _ rfl
      ⟨MType.adt "List", rfl, Or.inr ⟨"List", rfl⟩⟩⟩

/-! ## Claims C6 and C8 -/

/-- A match whose patterns are all variable binders is never extracted by
`Term::extract`: it stays a match on the same variable. -/
theorem extract_mat_allVars (x d : Name) (b : Bool) (ctrs : Ctrs) (c1 : Nat) (arms1 : Arms)
    (t2 : Term) (nd2 : List (Name × Definition)) (c2 : Nat)
    (hvars : ∀ p ∈ arms1.pats, isVarPat p = true)
    (h : Term.extract (Term.mat (Term.var x) arms1) d b ctrs c1 = Res.ok (t2, nd2, c2)) :
    ∃ arms2, Arms.extract arms1 d b ctrs c1 = Res.ok (arms2, nd2, c2) ∧
      t2 = Term.mat (Term.var x) arms2 ∧ arms2.pats = arms1.pats := by
  simp only [Term.extract] at h
  split at h
  · next arms2 nd' c' hA =>
      have hpats := pats_of_armsExtract arms1 d b ctrs c1 arms2 nd' c' hA
      split at h
      · next mt hI =>
          rw [hpats] at hI
          have hany := infer_allVars arms1.pats ctrs hvars
          have hmt : mt = MType.none ∨ mt = MType.any := by
            rcases hany with ⟨-, hany⟩ | hany <;> rw [hany] at hI <;> simp at hI <;>
              simp [hI]
          rcases hmt with hmt | hmt <;> subst hmt <;> simp at h <;>
            exact ⟨arms2, by rw [h.2.1, h.2.2] at hA; exact hA, h.1.symm, hpats⟩
      · exact absurd h (by simp)
      · exact absurd h (by simp)
  · exact absurd h (by simp)
  · exact absurd h (by simp)

/-- Claim C6 (as stated, refuted at a concrete input): a single-variable-arm
match whose arm body holds an extractable nested match is *not* left
unchanged — the arm body is rewritten into a call and a definition is
synthesized (`match x { a => match y { (a,b) => a } }`). -/
theorem c6_counterexample :
    (Book.extract_adt_matches cBook6).defNames = ["Foo", "Foo$match$1"] ∧
    (Book.extract_adt_matches cBook6).warningsOf = [] ∧
    (Book.extract_adt_matches cBook6).findDef "Foo" =
      some { name := "Foo",
             rules := [{ pats := [],
                         body := Term.mat (Term.var "x")
                           (Arms.cons (Pattern.var (some "a"))
                             (Term.app (Term.ref "Foo$match$1") (Term.var "y")) Arms.nil) }],
             builtin := false } := ⟨rfl, rfl, rfl⟩

/-- Claim C6 (amended: unchanged apart from the rewriting of its arm bodies,
which may itself synthesize definitions): a match-on-variable whose arm
patterns are all variable binders is never itself extracted — the walker
leaves it a match on the same variable with the same arm patterns, every
synthesized definition comes from the two passes over the arm bodies, and
`MatchOnlyVars` is emitted exactly when there is more than one arm, before
any warning from the arm bodies. -/
theorem c6_allvars_not_extracted (x d : Name) (b : Bool) (ctrs : Ctrs) (c : Nat) (arms : Arms)
    (t' : Term) (nd : List (Name × Definition)) (c' : Nat) (ws : List Warning)
    (hvars : arms.allVarPats = true)
    (h : Term.extract_adt_matches (Term.mat (Term.var x) arms) d b ctrs c =
      (Res.ok (t', nd, c'), ws)) :
    ∃ arms1 nd1 c1 ws1 arms2 nd2,
      Arms.extract_adt_matches arms d b ctrs c = (Res.ok (arms1, nd1, c1), ws1) ∧
      Arms.extract arms1 d b ctrs c1 = Res.ok (arms2, nd2, c') ∧
      t' = Term.mat (Term.var x) arms2 ∧
      arms2.pats = arms.pats ∧
      nd = nd1 ++ nd2 ∧
      ws = (if arms.len > 1 then [Warning.matchOnlyVars d] else []) ++ ws1 := by
  simp only [Term.extract_adt_matches, hvars] at h
  split at h
  · next arms1 nd1 c1 ws1 hAW =>
      have hpats1 := pats_of_armsWalk arms d b ctrs c arms1 nd1 c1 ws1 hAW
      split at h
      · next t2 nd2 c2 hE =>
          obtain ⟨arms2, hA2, ht2, hpats2⟩ :=
            extract_mat_allVars x d b ctrs c1 arms1 t2 nd2 c2
              (by rw [hpats1]; exact allVarPats_pats arms hvars) hE
          simp at h
          obtain ⟨⟨ht, hnd, hc⟩, hws⟩ := h
          subst ht hnd hc hws
          exact ⟨arms1, nd1, c1, ws1, arms2, nd2, hAW, hA2, ht2, by rw [hpats2, hpats1],
            rfl, by simp⟩
      · exact absurd h (by simp)
      · exact absurd h (by simp)
  · exact absurd h (by simp)
  · exact absurd h (by simp)

/-- Claim C6 witness: scenario D, `match x { a => 1; b => 2 }` — still a match,
nothing synthesized, exactly one warning. -/
theorem c6_allvars_not_extracted_witness :
    wArms.allVarPats = true ∧
    Term.extract_adt_matches (Term.mat (Term.var "x") wArms) "Foo" false [] 0 =
      (Res.ok (Term.mat (Term.var "x") wArms, [], 0), [Warning.matchOnlyVars "Foo"]) ∧
    (∃ arms1 nd1 c1 ws1 arms2 nd2,
      Arms.extract_adt_matches wArms "Foo" false [] 0 = (Res.ok (arms1, nd1, c1), ws1) ∧
      Arms.extract arms1 "Foo" false [] c1 = Res.ok (arms2, nd2, 0) ∧
      Term.mat (Term.var "x") wArms = Term.mat (Term.var "x") arms2 ∧
      arms2.pats = wArms.pats ∧
      ([] : List (Name × Definition)) = nd1 ++ nd2 ∧
      [Warning.matchOnlyVars "Foo"] =
        (if wArms.len > 1 then [Warning.matchOnlyVars "Foo"] else []) ++ ws1) :=
  ⟨rfl, rfl,
    c6_allvars_not_extracted "x" "Foo" false [] 0 wArms _ _ _ _ rfl rfl⟩

/-- Claim C8 (as stated, refuted at a concrete input): in `cBook8` the outer
all-variable match's warning is emitted even though recursion into its first
arm body *fails* — so the warning cannot have been emitted after the
recursion; under the claimed order the warnings list would be empty on this
error. -/
theorem c8_counterexample :
    (Book.extract_adt_matches cBook8).warningsOf = [Warning.matchOnlyVars "Foo"] ∧
    (Book.extract_adt_matches cBook8).isErr = true := ⟨rfl, rfl⟩

/-- Claim C8 (amended): the walker emits the `MatchOnlyVars` warning *before*
recursing into the arm bodies: for an all-variable match with more than one
arm, the warning delta starts with the enclosing match's warning and is
followed by whatever the arm bodies emit, whatever the traversal's outcome
(including errors and panics inside the arms). -/
theorem c8_warning_first (x d : Name) (b : Bool) (ctrs : Ctrs) (c : Nat) (arms : Arms)
    (hvars : arms.allVarPats = true) (hlen : arms.len > 1) :
    (Term.extract_adt_matches (Term.mat (Term.var x) arms) d b ctrs c).2 =
      Warning.matchOnlyVars d :: (Arms.extract_adt_matches arms d b ctrs c).2 := by
  simp only [Term.extract_adt_matches, hvars, hlen]
  cases hAW : Arms.extract_adt_matches arms d b ctrs c with
  | mk res ws1 =>
      cases res with
      | ok v =>
          obtain ⟨arms1, nd1, c1⟩ := v
          cases hE : Term.extract (Term.mat (Term.var x) arms1) d b ctrs c1 <;>
            simp [hAW, hE, hvars, hlen]
      | err e => simp [hAW, hvars, hlen]
      | panic m => simp [hAW, hvars, hlen]

/-- Claim C8 witness: scenario D's arms. -/
theorem c8_warning_first_witness :
    wArms.allVarPats = true ∧ wArms.len > 1 ∧
    (Term.extract_adt_matches (Term.mat (Term.var "x") wArms) "Foo" false [] 0).2 =
      Warning.matchOnlyVars "Foo" :: (Arms.extract_adt_matches wArms "Foo" false [] 0).2 :=
  ⟨rfl, by decide, c8_warning_first "x" "Foo" false [] 0 wArms rfl (by decide)⟩

/-! ## Claim C1 -/

/-- Claim C1 (evaluating the code at the failing input): the match counter is a
fresh `&mut 0` for every *rule* (not per definition), so the two rules of
`Foo` in `cBook1` both synthesize a definition named `Foo$match$1`; the names
are not pairwise distinct, and when `defs.extend(new_defs)` runs, the second
synthesized definition silently replaces the first — the surviving
`Foo$match$1` holds the second rule's arms, while the first rule's rewritten
body still calls it. -/
theorem c1_duplicate_names :
    (runDefs [] cBook1.defs).newNames = ["Foo$match$1", "Foo$match$1"] ∧
    ¬ (runDefs [] cBook1.defs).newNames.Nodup ∧
    (Book.extract_adt_matches cBook1).defNames = ["Foo", "Foo$match$1"] ∧
    (Book.extract_adt_matches cBook1).findDef "Foo$match$1" =
      some { name := "Foo$match$1", rules := [{ pats := [bPat], body := Term.var "d" }],
             builtin := false } ∧
    (Book.extract_adt_matches cBook1).findDef "Foo" =
      some { name := "Foo",
             rules := [{ pats := [], body := Term.app (Term.ref "Foo$match$1") (Term.var "x") },
                       { pats := [], body := Term.app (Term.ref "Foo$match$1") (Term.var "y") }],
             builtin := false } :=
  ⟨rfl, by decide, rfl, rfl, rfl⟩

/-! ## Claim C10 -/

/-- On a failing run the definition loop keeps every definition entry under
its original name (rewriting only rule bodies). -/
theorem runDefs_err_names : ∀ (ds : List (Name × Definition)) (ctrs : Ctrs)
    (ds2 : List (Name × Definition)) (ws : List Warning) (m : String),
    runDefs ctrs ds = DefsRes.err ds2 ws m → ds2.map Prod.fst = ds.map Prod.fst := by
  intro ds
  induction ds with
  | nil => intro ctrs ds2 ws m h; simp [runDefs] at h
  | cons nd rest ih =>
      obtain ⟨n, d⟩ := nd
      intro ctrs ds2 ws m h
      simp only [runDefs] at h
      split at h
      · split at h
        · exact absurd h (by simp)
        · next ds3 ws2 m2 hrd =>
            simp at h
            obtain ⟨hds2, -, -⟩ := h
            subst hds2
            simp [ih ctrs ds3 ws2 m2 hrd]
        · exact absurd h (by simp)
      · next rules2 ws1 m1 hrr =>
          simp at h
          obtain ⟨hds2, -, -⟩ := h
          subst hds2
          simp
      · exact absurd h (by simp)

/-- Claim C10: if the stage returns an error, the book's definition table gains
no entries — the definition names after the failed run are exactly the
original ones (synthesized definitions are discarded, never inserted), even
though bodies processed before the failure may have been rewritten. -/
theorem c10_error_adds_no_defs (book book' : Book) (ws : List Warning) (m : String)
    (h : Book.extract_adt_matches book = BookRes.err book' ws m) :
    book'.defs.map Prod.fst = book.defs.map Prod.fst := by
  simp only [Book.extract_adt_matches] at h
  split at h
  · exact absurd h (by simp)
  · next ds ws2 m2 hrd =>
      simp at h
      obtain ⟨hb, -, -⟩ := h
      rw [← hb]
      exact runDefs_err_names book.defs book.ctrs ds ws2 m2 hrd
  · exact absurd h (by simp)

/-- Claim C10 witness: the failing book `cBook8` keeps exactly its original
definition names. -/
theorem c10_error_adds_no_defs_witness :
    Book.extract_adt_matches cBook8 =
      BookRes.err cBook8 [Warning.matchOnlyVars "Foo"]
        "In definition 'Foo': Type mismatch. Found 'Numeric' expected Tuple." ∧
    cBook8.defs.map Prod.fst = cBook8.defs.map Prod.fst :=
  ⟨rfl, c10_error_adds_no_defs cBook8 cBook8 _ _ rfl⟩

/-! ## Claim C9: safety machinery -/

/-- One unification step never panics. -/
theorem unifyStep_no_panic (a b : MType) : ∀ m, unifyStep a b ≠ Res.panic m := by
  intro m
  cases a <;> cases b <;> simp [unifyStep]
  split <;> simp

/-- The unification fold never panics when every pattern classifies. -/
theorem inferGo_no_panic : ∀ (ps : List Pattern) (ctrs : Ctrs) (acc : MType),
    (∀ p ∈ ps, patTypeOk p ctrs = true) → ∀ m, inferGo ps ctrs acc ≠ Res.panic m
  | [], _, _, _, m => by simp [inferGo]
  | p :: ps, ctrs, acc, h, m => by
      obtain ⟨mt, hmt⟩ := to_type_ok p ctrs (h p (by simp))
      simp only [inferGo, hmt]
      cases hU : unifyStep mt acc with
      | ok acc2 => exact inferGo_no_panic ps ctrs acc2 (fun q hq => h q (by simp [hq])) m
      | err e => simp
      | panic m2 => exact absurd hU (unifyStep_no_panic mt acc m2)

/-- The `infer_match_type` never panics when every pattern classifies. -/
theorem infer_no_panic (ps : List Pattern) (ctrs : Ctrs)
    (h : (ps.all fun p => patTypeOk p ctrs) = true) :
    ∀ m, infer_match_type ps ctrs ≠ Res.panic m :=
  inferGo_no_panic ps ctrs MType.none (by simpa [List.all_eq_true] using h)

mutual
/-- The `Term::extract` never panics on an `extractSafe` term, and its rewrite is
again `extractSafe`. -/
theorem extract_safe : ∀ (t : Term) (ctrs : Ctrs) (d : Name) (b : Bool) (c : Nat),
    Term.extractSafe ctrs t = true → ExtractSafeRes ctrs (Term.extract t d b ctrs c)
  | Term.var n, ctrs, d, b, c, hsafe => by simp [Term.extract, ExtractSafeRes, Term.extractSafe]
  | Term.lnk n, ctrs, d, b, c, hsafe => by simp [Term.extract, ExtractSafeRes, Term.extractSafe]
  | Term.num v, ctrs, d, b, c, hsafe => by simp [Term.extract, ExtractSafeRes, Term.extractSafe]
  | Term.str v, ctrs, d, b, c, hsafe => by simp [Term.extract, ExtractSafeRes, Term.extractSafe]
  | Term.ref n, ctrs, d, b, c, hsafe => by simp [Term.extract, ExtractSafeRes, Term.extractSafe]
  | Term.era, ctrs, d, b, c, hsafe => by simp [Term.extract, ExtractSafeRes, Term.extractSafe]
  | Term.err, ctrs, d, b, c, hsafe => by simp [Term.extractSafe] at hsafe
  | Term.lst els, ctrs, d, b, c, hsafe => by simp [Term.extractSafe] at hsafe
  | Term.lam n bod, ctrs, d, b, c, hsafe => by
      simp only [Term.extractSafe] at hsafe
      simp only [Term.extract]
      have h1 := extract_safe bod ctrs d b c hsafe
      cases hb : Term.extract bod d b ctrs c with
      | ok v =>
          obtain ⟨bod2, nd, c2⟩ := v
          rw [hb] at h1
          simp only [ExtractSafeRes] at h1
          simp [ExtractSafeRes, Term.extractSafe, h1]
      | err e => simp [ExtractSafeRes]
      | panic m => rw [hb] at h1; simp [ExtractSafeRes] at h1
  | Term.chn n bod, ctrs, d, b, c, hsafe => by
      simp only [Term.extractSafe] at hsafe
      simp only [Term.extract]
      have h1 := extract_safe bod ctrs d b c hsafe
      cases hb : Term.extract bod d b ctrs c with
      | ok v =>
          obtain ⟨bod2, nd, c2⟩ := v
          rw [hb] at h1
          simp only [ExtractSafeRes] at h1
          simp [ExtractSafeRes, Term.extractSafe, h1]
      | err e => simp [ExtractSafeRes]
      | panic m => rw [hb] at h1; simp [ExtractSafeRes] at h1
  | Term.app fn arg, ctrs, d, b, c, hsafe => by
      simp only [Term.extractSafe, Bool.and_eq_true] at hsafe
      simp only [Term.extract]
      have h1 := extract_safe fn ctrs d b c hsafe.1
      cases hf : Term.extract fn d b ctrs c with
      | ok v =>
          obtain ⟨fn2, nd1, c1⟩ := v
          rw [hf] at h1
          simp only [ExtractSafeRes] at h1
          have h2 := extract_safe arg ctrs d b c1 hsafe.2
          cases ha : Term.extract arg d b ctrs c1 with
          | ok v2 =>
              obtain ⟨arg2, nd2, c2⟩ := v2
              rw [ha] at h2
              simp only [ExtractSafeRes] at h2
              simp [ExtractSafeRes, Term.extractSafe, ha, h1, h2]
          | err e => simp [ExtractSafeRes, ha]
          | panic m => rw [ha] at h2; simp [ExtractSafeRes] at h2
      | err e => simp [ExtractSafeRes]
      | panic m => rw [hf] at h1; simp [ExtractSafeRes] at h1
  | Term.letE pat fst snd, ctrs, d, b, c, hsafe => by
      cases pat with
      | var v =>
          simp only [Term.extractSafe, Bool.and_eq_true] at hsafe
          simp only [Term.extract]
          have h1 := extract_safe fst ctrs d b c hsafe.1
          cases hf : Term.extract fst d b ctrs c with
          | ok v1 =>
              obtain ⟨fst2, nd1, c1⟩ := v1
              rw [hf] at h1
              simp only [ExtractSafeRes] at h1
              have h2 := extract_safe snd ctrs d b c1 hsafe.2
              cases ha : Term.extract snd d b ctrs c1 with
              | ok v2 =>
                  obtain ⟨snd2, nd2, c2⟩ := v2
                  rw [ha] at h2
                  simp only [ExtractSafeRes] at h2
                  simp [ExtractSafeRes, Term.extractSafe, ha, h1, h2]
              | err e => simp [ExtractSafeRes, ha]
              | panic m => rw [ha] at h2; simp [ExtractSafeRes] at h2
          | err e => simp [ExtractSafeRes]
          | panic m => rw [hf] at h1; simp [ExtractSafeRes] at h1
      | ctr cn cargs => simp [Term.extractSafe] at hsafe
      | num nv => simp [Term.extractSafe] at hsafe
      | tup p1 p2 => simp [Term.extractSafe] at hsafe
  | Term.dup dfst dsnd fst snd, ctrs, d, b, c, hsafe => by
      simp only [Term.extractSafe, Bool.and_eq_true] at hsafe
      simp only [Term.extract]
      have h1 := extract_safe fst ctrs d b c hsafe.1
      cases hf : Term.extract fst d b ctrs c with
      | ok v1 =>
          obtain ⟨fst2, nd1, c1⟩ := v1
          rw [hf] at h1
          simp only [ExtractSafeRes] at h1
          have h2 := extract_safe snd ctrs d b c1 hsafe.2
          cases ha : Term.extract snd d b ctrs c1 with
          | ok v2 =>
              obtain ⟨snd2, nd2, c2⟩ := v2
              rw [ha] at h2
              simp only [ExtractSafeRes] at h2
              simp [ExtractSafeRes, Term.extractSafe, ha, h1, h2]
          | err e => simp [ExtractSafeRes, ha]
          | panic m => rw [ha] at h2; simp [ExtractSafeRes] at h2
      | err e => simp [ExtractSafeRes]
      | panic m => rw [hf] at h1; simp [ExtractSafeRes] at h1
  | Term.tup fst snd, ctrs, d, b, c, hsafe => by
      simp only [Term.extractSafe, Bool.and_eq_true] at hsafe
      simp only [Term.extract]
      have h1 := extract_safe fst ctrs d b c hsafe.1
      cases hf : Term.extract fst d b ctrs c with
      | ok v1 =>
          obtain ⟨fst2, nd1, c1⟩ := v1
          rw [hf] at h1
          simp only [ExtractSafeRes] at h1
          have h2 := extract_safe snd ctrs d b c1 hsafe.2
          cases ha : Term.extract snd d b ctrs c1 with
          | ok v2 =>
              obtain ⟨snd2, nd2, c2⟩ := v2
              rw [ha] at h2
              simp only [ExtractSafeRes] at h2
              simp [ExtractSafeRes, Term.extractSafe, ha, h1, h2]
          | err e => simp [ExtractSafeRes, ha]
          | panic m => rw [ha] at h2; simp [ExtractSafeRes] at h2
      | err e => simp [ExtractSafeRes]
      | panic m => rw [hf] at h1; simp [ExtractSafeRes] at h1
  | Term.sup fst snd, ctrs, d, b, c, hsafe => by
      simp only [Term.extractSafe, Bool.and_eq_true] at hsafe
      simp only [Term.extract]
      have h1 := extract_safe fst ctrs d b c hsafe.1
      cases hf : Term.extract fst d b ctrs c with
      | ok v1 =>
          obtain ⟨fst2, nd1, c1⟩ := v1
          rw [hf] at h1
          simp only [ExtractSafeRes] at h1
          have h2 := extract_safe snd ctrs d b c1 hsafe.2
          cases ha : Term.extract snd d b ctrs c1 with
          | ok v2 =>
              obtain ⟨snd2, nd2, c2⟩ := v2
              rw [ha] at h2
              simp only [ExtractSafeRes] at h2
              simp [ExtractSafeRes, Term.extractSafe, ha, h1, h2]
          | err e => simp [ExtractSafeRes, ha]
          | panic m => rw [ha] at h2; simp [ExtractSafeRes] at h2
      | err e => simp [ExtractSafeRes]
      | panic m => rw [hf] at h1; simp [ExtractSafeRes] at h1
  | Term.opx op fst snd, ctrs, d, b, c, hsafe => by
      simp only [Term.extractSafe, Bool.and_eq_true] at hsafe
      simp only [Term.extract]
      have h1 := extract_safe fst ctrs d b c hsafe.1
      cases hf : Term.extract fst d b ctrs c with
      | ok v1 =>
          obtain ⟨fst2, nd1, c1⟩ := v1
          rw [hf] at h1
          simp only [ExtractSafeRes] at h1
          have h2 := extract_safe snd ctrs d b c1 hsafe.2
          cases ha : Term.extract snd d b ctrs c1 with
          | ok v2 =>
              obtain ⟨snd2, nd2, c2⟩ := v2
              rw [ha] at h2
              simp only [ExtractSafeRes] at h2
              simp [ExtractSafeRes, Term.extractSafe, ha, h1, h2]
          | err e => simp [ExtractSafeRes, ha]
          | panic m => rw [ha] at h2; simp [ExtractSafeRes] at h2
      | err e => simp [ExtractSafeRes]
      | panic m => rw [hf] at h1; simp [ExtractSafeRes] at h1
  | Term.mat scrut arms, ctrs, d, b, c, hsafe => by
      cases scrut
      case var x =>
        simp only [Term.extractSafe, Bool.and_eq_true] at hsafe
        simp only [Term.extract]
        have h1 := armsExtract_safe arms ctrs d b c hsafe.1
        cases hA : Arms.extract arms d b ctrs c with
        | ok v =>
            obtain ⟨arms2, nd1, c1⟩ := v
            rw [hA] at h1
            simp only [ArmsExtractSafeRes] at h1
            have hpats := pats_of_armsExtract arms d b ctrs c arms2 nd1 c1 hA
            have hpok : (arms2.pats.all fun p => patTypeOk p ctrs) = true := by
              rw [hpats]; exact hsafe.2
            cases hI : infer_match_type arms2.pats ctrs with
            | ok mt =>
                cases mt <;>
                  simp [ExtractSafeRes, Term.extractSafe, match_to_def, hI, h1, hpok]
            | err e => simp [ExtractSafeRes, hI]
            | panic m => exact absurd hI (infer_no_panic arms2.pats ctrs hpok m)
        | err e => simp [ExtractSafeRes]
        | panic m => rw [hA] at h1; simp [ArmsExtractSafeRes] at h1
      all_goals simp [Term.extractSafe] at hsafe

/-- The arm loop of `Term::extract` never panics on `extractSafe` arms, and
its rewrite is again `extractSafe`. -/
theorem armsExtract_safe : ∀ (arms : Arms) (ctrs : Ctrs) (d : Name) (b : Bool) (c : Nat),
    Arms.extractSafe ctrs arms = true → ArmsExtractSafeRes ctrs (Arms.extract arms d b ctrs c)
  | Arms.nil, ctrs, d, b, c, hsafe => by
      simp [Arms.extract, ArmsExtractSafeRes, Arms.extractSafe]
  | Arms.cons p bd rest, ctrs, d, b, c, hsafe => by
      simp only [Arms.extractSafe, Bool.and_eq_true] at hsafe
      simp only [Arms.extract]
      have h1 := extract_safe bd ctrs d b c hsafe.1
      cases hb : Term.extract bd d b ctrs c with
      | ok v =>
          obtain ⟨bd2, nd1, c1⟩ := v
          rw [hb] at h1
          simp only [ExtractSafeRes] at h1
          have h2 := armsExtract_safe rest ctrs d b c1 hsafe.2
          cases hr : Arms.extract rest d b ctrs c1 with
          | ok v2 =>
              obtain ⟨rest2, nd2, c2⟩ := v2
              rw [hr] at h2
              simp only [ArmsExtractSafeRes] at h2
              simp [ArmsExtractSafeRes, Arms.extractSafe, hr, h1, h2]
          | err e => simp [ArmsExtractSafeRes, hr]
          | panic m => rw [hr] at h2; simp [ArmsExtractSafeRes] at h2
      | err e => simp [ArmsExtractSafeRes]
      | panic m => rw [hb] at h1; simp [ExtractSafeRes] at h1
end

mutual
/-- The walker never panics on an `extractSafe` term, and its rewrite stays
`extractSafe`. -/
theorem walk_safe : ∀ (t : Term) (ctrs : Ctrs) (d : Name) (b : Bool) (c : Nat),
    Term.extractSafe ctrs t = true → WalkPreserveRes ctrs (Term.extract_adt_matches t d b ctrs c)
  | Term.var n, ctrs, d, b, c, hsafe => by
      simp [Term.extract_adt_matches, WalkPreserveRes, Term.extractSafe]
  | Term.lnk n, ctrs, d, b, c, hsafe => by
      simp [Term.extract_adt_matches, WalkPreserveRes, Term.extractSafe]
  | Term.num v, ctrs, d, b, c, hsafe => by
      simp [Term.extract_adt_matches, WalkPreserveRes, Term.extractSafe]
  | Term.str v, ctrs, d, b, c, hsafe => by
      simp [Term.extract_adt_matches, WalkPreserveRes, Term.extractSafe]
  | Term.ref n, ctrs, d, b, c, hsafe => by
      simp [Term.extract_adt_matches, WalkPreserveRes, Term.extractSafe]
  | Term.era, ctrs, d, b, c, hsafe => by
      simp [Term.extract_adt_matches, WalkPreserveRes, Term.extractSafe]
  | Term.err, ctrs, d, b, c, hsafe => by simp [Term.extractSafe] at hsafe
  | Term.lst els, ctrs, d, b, c, hsafe => by simp [Term.extractSafe] at hsafe
  | Term.lam n bod, ctrs, d, b, c, hsafe => by
      simp only [Term.extractSafe] at hsafe
      simp only [Term.extract_adt_matches]
      have h1 := walk_safe bod ctrs d b c hsafe
      cases hb : Term.extract_adt_matches bod d b ctrs c with
      | mk res1 ws1 =>
          rw [hb] at h1
          cases res1 with
          | ok v =>
              obtain ⟨bod2, nd, c2⟩ := v
              simp only [WalkPreserveRes] at h1
              simp [WalkPreserveRes, Term.extractSafe, hb, h1]
          | err e => simp [WalkPreserveRes, hb]
          | panic m => simp [WalkPreserveRes] at h1
  | Term.chn n bod, ctrs, d, b, c, hsafe => by
      simp only [Term.extractSafe] at hsafe
      simp only [Term.extract_adt_matches]
      have h1 := walk_safe bod ctrs d b c hsafe
      cases hb : Term.extract_adt_matches bod d b ctrs c with
      | mk res1 ws1 =>
          rw [hb] at h1
          cases res1 with
          | ok v =>
              obtain ⟨bod2, nd, c2⟩ := v
              simp only [WalkPreserveRes] at h1
              simp [WalkPreserveRes, Term.extractSafe, hb, h1]
          | err e => simp [WalkPreserveRes, hb]
          | panic m => simp [WalkPreserveRes] at h1
  | Term.app fn arg, ctrs, d, b, c, hsafe => by
      simp only [Term.extractSafe, Bool.and_eq_true] at hsafe
      simp only [Term.extract_adt_matches]
      have h1 := walk_safe fn ctrs d b c hsafe.1
      cases hf : Term.extract_adt_matches fn d b ctrs c with
      | mk res1 ws1 =>
          rw [hf] at h1
          cases res1 with
          | ok v =>
              obtain ⟨fn2, nd1, c1⟩ := v
              simp only [WalkPreserveRes] at h1
              have h2 := walk_safe arg ctrs d b c1 hsafe.2
              cases ha : Term.extract_adt_matches arg d b ctrs c1 with
              | mk res2 ws2 =>
                  rw [ha] at h2
                  cases res2 with
                  | ok v2 =>
                      obtain ⟨arg2, nd2, c2⟩ := v2
                      simp only [WalkPreserveRes] at h2
                      simp [WalkPreserveRes, Term.extractSafe, hf, ha, h1, h2]
                  | err e => simp [WalkPreserveRes, hf, ha]
                  | panic m => simp [WalkPreserveRes] at h2
          | err e => simp [WalkPreserveRes, hf]
          | panic m => simp [WalkPreserveRes] at h1
  | Term.letE pat fst snd, ctrs, d, b, c, hsafe => by
      cases pat with
      | var v =>
          simp only [Term.extractSafe, Bool.and_eq_true] at hsafe
          simp only [Term.extract_adt_matches]
          have h1 := walk_safe fst ctrs d b c hsafe.1
          cases hf : Term.extract_adt_matches fst d b ctrs c with
          | mk res1 ws1 =>
              rw [hf] at h1
              cases res1 with
              | ok v1 =>
                  obtain ⟨fst2, nd1, c1⟩ := v1
                  simp only [WalkPreserveRes] at h1
                  have h2 := walk_safe snd ctrs d b c1 hsafe.2
                  cases ha : Term.extract_adt_matches snd d b ctrs c1 with
                  | mk res2 ws2 =>
                      rw [ha] at h2
                      cases res2 with
                      | ok v2 =>
                          obtain ⟨snd2, nd2, c2⟩ := v2
                          simp only [WalkPreserveRes] at h2
                          simp [WalkPreserveRes, Term.extractSafe, hf, ha, h1, h2]
                      | err e => simp [WalkPreserveRes, hf, ha]
                      | panic m => simp [WalkPreserveRes] at h2
              | err e => simp [WalkPreserveRes, hf]
              | panic m => simp [WalkPreserveRes] at h1
      | ctr cn cargs => simp [Term.extractSafe] at hsafe
      | num nv => simp [Term.extractSafe] at hsafe
      | tup p1 p2 => simp [Term.extractSafe] at hsafe
  | Term.dup dfst dsnd fst snd, ctrs, d, b, c, hsafe => by
      simp only [Term.extractSafe, Bool.and_eq_true] at hsafe
      simp only [Term.extract_adt_matches]
      have h1 := walk_safe fst ctrs d b c hsafe.1
      cases hf : Term.extract_adt_matches fst d b ctrs c with
      | mk res1 ws1 =>
          rw [hf] at h1
          cases res1 with
          | ok v1 =>
              obtain ⟨fst2, nd1, c1⟩ := v1
              simp only [WalkPreserveRes] at h1
              have h2 := walk_safe snd ctrs d b c1 hsafe.2
              cases ha : Term.extract_adt_matches snd d b ctrs c1 with
              | mk res2 ws2 =>
                  rw [ha] at h2
                  cases res2 with
                  | ok v2 =>
                      obtain ⟨snd2, nd2, c2⟩ := v2
                      simp only [WalkPreserveRes] at h2
                      simp [WalkPreserveRes, Term.extractSafe, hf, ha, h1, h2]
                  | err e => simp [WalkPreserveRes, hf, ha]
                  | panic m => simp [WalkPreserveRes] at h2
          | err e => simp [WalkPreserveRes, hf]
          | panic m => simp [WalkPreserveRes] at h1
  | Term.tup fst snd, ctrs, d, b, c, hsafe => by
      simp only [Term.extractSafe, Bool.and_eq_true] at hsafe
      simp only [Term.extract_adt_matches]
      have h1 := walk_safe fst ctrs d b c hsafe.1
      cases hf : Term.extract_adt_matches fst d b ctrs c with
      | mk res1 ws1 =>
          rw [hf] at h1
          cases res1 with
          | ok v1 =>
              obtain ⟨fst2, nd1, c1⟩ := v1
              simp only [WalkPreserveRes] at h1
              have h2 := walk_safe snd ctrs d b c1 hsafe.2
              cases ha : Term.extract_adt_matches snd d b ctrs c1 with
              | mk res2 ws2 =>
                  rw [ha] at h2
                  cases res2 with
                  | ok v2 =>
                      obtain ⟨snd2, nd2, c2⟩ := v2
                      simp only [WalkPreserveRes] at h2
                      simp [WalkPreserveRes, Term.extractSafe, hf, ha, h1, h2]
                  | err e => simp [WalkPreserveRes, hf, ha]
                  | panic m => simp [WalkPreserveRes] at h2
          | err e => simp [WalkPreserveRes, hf]
          | panic m => simp [WalkPreserveRes] at h1
  | Term.sup fst snd, ctrs, d, b, c, hsafe => by
      simp only [Term.extractSafe, Bool.and_eq_true] at hsafe
      simp only [Term.extract_adt_matches]
      have h1 := walk_safe fst ctrs d b c hsafe.1
      cases hf : Term.extract_adt_matches fst d b ctrs c with
      | mk res1 ws1 =>
          rw [hf] at h1
          cases res1 with
          | ok v1 =>
              obtain ⟨fst2, nd1, c1⟩ := v1
              simp only [WalkPreserveRes] at h1
              have h2 := walk_safe snd ctrs d b c1 hsafe.2
              cases ha : Term.extract_adt_matches snd d b ctrs c1 with
              | mk res2 ws2 =>
                  rw [ha] at h2
                  cases res2 with
                  | ok v2 =>
                      obtain ⟨snd2, nd2, c2⟩ := v2
                      simp only [WalkPreserveRes] at h2
                      simp [WalkPreserveRes, Term.extractSafe, hf, ha, h1, h2]
                  | err e => simp [WalkPreserveRes, hf, ha]
                  | panic m => simp [WalkPreserveRes] at h2
          | err e => simp [WalkPreserveRes, hf]
          | panic m => simp [WalkPreserveRes] at h1
  | Term.opx op fst snd, ctrs, d, b, c, hsafe => by
      simp only [Term.extractSafe, Bool.and_eq_true] at hsafe
      simp only [Term.extract_adt_matches]
      have h1 := walk_safe fst ctrs d b c hsafe.1
      cases hf : Term.extract_adt_matches fst d b ctrs c with
      | mk res1 ws1 =>
          rw [hf] at h1
          cases res1 with
          | ok v1 =>
              obtain ⟨fst2, nd1, c1⟩ := v1
              simp only [WalkPreserveRes] at h1
              have h2 := walk_safe snd ctrs d b c1 hsafe.2
              cases ha : Term.extract_adt_matches snd d b ctrs c1 with
              | mk res2 ws2 =>
                  rw [ha] at h2
                  cases res2 with
                  | ok v2 =>
                      obtain ⟨snd2, nd2, c2⟩ := v2
                      simp only [WalkPreserveRes] at h2
                      simp [WalkPreserveRes, Term.extractSafe, hf, ha, h1, h2]
                  | err e => simp [WalkPreserveRes, hf, ha]
                  | panic m => simp [WalkPreserveRes] at h2
          | err e => simp [WalkPreserveRes, hf]
          | panic m => simp [WalkPreserveRes] at h1
  | Term.mat scrut arms, ctrs, d, b, c, hsafe => by
      cases scrut
      case var x =>
        have hsafe' := hsafe
        simp only [Term.extractSafe, Bool.and_eq_true] at hsafe'
        simp only [Term.extract_adt_matches]
        have h1 := armsWalk_safe arms ctrs d b c hsafe'.1
        cases hAW : Arms.extract_adt_matches arms d b ctrs c with
        | mk res1 ws1 =>
            rw [hAW] at h1
            cases res1 with
            | ok v =>
                obtain ⟨arms1, nd1, c1⟩ := v
                simp only [ArmsWalkPreserveRes] at h1
                have hpats := pats_of_armsWalk arms d b ctrs c arms1 nd1 c1 ws1 hAW
                have hsafe1 : Term.extractSafe ctrs (Term.mat (Term.var x) arms1) = true := by
                  simp [Term.extractSafe, h1, hpats, hsafe'.2]
                have h2 := extract_safe (Term.mat (Term.var x) arms1) ctrs d b c1 hsafe1
                cases hE : Term.extract (Term.mat (Term.var x) arms1) d b ctrs c1 with
                | ok v2 =>
                    obtain ⟨t2, nd2, c2⟩ := v2
                    rw [hE] at h2
                    simp only [ExtractSafeRes] at h2
                    simp [WalkPreserveRes, hAW, hE, h2]
                | err e => simp [WalkPreserveRes, hAW, hE]
                | panic m => rw [hE] at h2; simp [ExtractSafeRes] at h2
            | err e => simp [WalkPreserveRes, hAW]
            | panic m => simp [ArmsWalkPreserveRes] at h1
      all_goals simp [Term.extractSafe] at hsafe

/-- The arm loop of the walker never panics on `extractSafe` arms, and its
rewrite stays `extractSafe`. -/
theorem armsWalk_safe : ∀ (arms : Arms) (ctrs : Ctrs) (d : Name) (b : Bool) (c : Nat),
    Arms.extractSafe ctrs arms = true →
    ArmsWalkPreserveRes ctrs (Arms.extract_adt_matches arms d b ctrs c)
  | Arms.nil, ctrs, d, b, c, hsafe => by
      simp [Arms.extract_adt_matches, ArmsWalkPreserveRes, Arms.extractSafe]
  | Arms.cons p bd rest, ctrs, d, b, c, hsafe => by
      simp only [Arms.extractSafe, Bool.and_eq_true] at hsafe
      simp only [Arms.extract_adt_matches]
      have h1 := walk_safe bd ctrs d b c hsafe.1
      cases hb : Term.extract_adt_matches bd d b ctrs c with
      | mk res1 ws1 =>
          rw [hb] at h1
          cases res1 with
          | ok v =>
              obtain ⟨bd2, nd1, c1⟩ := v
              simp only [WalkPreserveRes] at h1
              have h2 := armsWalk_safe rest ctrs d b c1 hsafe.2
              cases hr : Arms.extract_adt_matches rest d b ctrs c1 with
              | mk res2 ws2 =>
                  rw [hr] at h2
                  cases res2 with
                  | ok v2 =>
                      obtain ⟨rest2, nd2, c2⟩ := v2
                      simp only [ArmsWalkPreserveRes] at h2
                      simp [ArmsWalkPreserveRes, Arms.extractSafe, hb, hr, h1, h2]
                  | err e => simp [ArmsWalkPreserveRes, hb, hr]
                  | panic m => simp [ArmsWalkPreserveRes] at h2
          | err e => simp [ArmsWalkPreserveRes, hb]
          | panic m => simp [WalkPreserveRes] at h1
end

/-- A preserved walk is in particular not a panic. -/
theorem WalkPreserveRes.noPanic {ctrs : Ctrs}
    {pr : Res (MatchError × Term) (Term × List (Name × Definition) × Nat) × List Warning}
    (h : WalkPreserveRes ctrs pr) : NoPanicRes pr := by
  obtain ⟨res, ws⟩ := pr
  cases res with
  | ok v => simp [NoPanicRes]
  | err e => simp [NoPanicRes]
  | panic m => simp [WalkPreserveRes] at h

mutual
/-- The walker never panics on a `walkSafe` term. -/
theorem walk_nopanic : ∀ (t : Term) (ctrs : Ctrs) (d : Name) (b : Bool) (c : Nat),
    Term.walkSafe ctrs t = true → NoPanicRes (Term.extract_adt_matches t d b ctrs c)
  | Term.var n, ctrs, d, b, c, hsafe => by simp [Term.extract_adt_matches, NoPanicRes]
  | Term.lnk n, ctrs, d, b, c, hsafe => by simp [Term.extract_adt_matches, NoPanicRes]
  | Term.num v, ctrs, d, b, c, hsafe => by simp [Term.extract_adt_matches, NoPanicRes]
  | Term.str v, ctrs, d, b, c, hsafe => by simp [Term.extract_adt_matches, NoPanicRes]
  | Term.ref n, ctrs, d, b, c, hsafe => by simp [Term.extract_adt_matches, NoPanicRes]
  | Term.era, ctrs, d, b, c, hsafe => by simp [Term.extract_adt_matches, NoPanicRes]
  | Term.err, ctrs, d, b, c, hsafe => by simp [Term.extract_adt_matches, NoPanicRes]
  | Term.lst els, ctrs, d, b, c, hsafe => by simp [Term.walkSafe] at hsafe
  | Term.lam n bod, ctrs, d, b, c, hsafe => by
      simp only [Term.walkSafe] at hsafe
      simp only [Term.extract_adt_matches]
      have h1 := walk_nopanic bod ctrs d b c hsafe
      cases hb : Term.extract_adt_matches bod d b ctrs c with
      | mk res1 ws1 =>
          rw [hb] at h1
          cases res1 with
          | ok v =>
              obtain ⟨bod2, nd, c2⟩ := v
              simp [NoPanicRes, hb]
          | err e => simp [NoPanicRes, hb]
          | panic m => simp [NoPanicRes] at h1
  | Term.chn n bod, ctrs, d, b, c, hsafe => by
      simp only [Term.walkSafe] at hsafe
      simp only [Term.extract_adt_matches]
      have h1 := walk_nopanic bod ctrs d b c hsafe
      cases hb : Term.extract_adt_matches bod d b ctrs c with
      | mk res1 ws1 =>
          rw [hb] at h1
          cases res1 with
          | ok v =>
              obtain ⟨bod2, nd, c2⟩ := v
              simp [NoPanicRes, hb]
          | err e => simp [NoPanicRes, hb]
          | panic m => simp [NoPanicRes] at h1
  | Term.app fn arg, ctrs, d, b, c, hsafe => by
      simp only [Term.walkSafe, Bool.and_eq_true] at hsafe
      simp only [Term.extract_adt_matches]
      have h1 := walk_nopanic fn ctrs d b c hsafe.1
      cases hf : Term.extract_adt_matches fn d b ctrs c with
      | mk res1 ws1 =>
          rw [hf] at h1
          cases res1 with
          | ok v =>
              obtain ⟨fn2, nd1, c1⟩ := v
              have h2 := walk_nopanic arg ctrs d b c1 hsafe.2
              cases ha : Term.extract_adt_matches arg d b ctrs c1 with
              | mk res2 ws2 =>
                  rw [ha] at h2
                  cases res2 with
                  | ok v2 =>
                      obtain ⟨arg2, nd2, c2⟩ := v2
                      simp [NoPanicRes, hf, ha]
                  | err e => simp [NoPanicRes, hf, ha]
                  | panic m => simp [NoPanicRes] at h2
          | err e => simp [NoPanicRes, hf]
          | panic m => simp [NoPanicRes] at h1
  | Term.letE pat fst snd, ctrs, d, b, c, hsafe => by
      cases pat with
      | var v =>
          simp only [Term.walkSafe, Bool.and_eq_true] at hsafe
          simp only [Term.extract_adt_matches]
          have h1 := walk_nopanic fst ctrs d b c hsafe.1
          cases hf : Term.extract_adt_matches fst d b ctrs c with
          | mk res1 ws1 =>
              rw [hf] at h1
              cases res1 with
              | ok v1 =>
                  obtain ⟨fst2, nd1, c1⟩ := v1
                  have h2 := walk_nopanic snd ctrs d b c1 hsafe.2
                  cases ha : Term.extract_adt_matches snd d b ctrs c1 with
                  | mk res2 ws2 =>
                      rw [ha] at h2
                      cases res2 with
                      | ok v2 =>
                          obtain ⟨snd2, nd2, c2⟩ := v2
                          simp [NoPanicRes, hf, ha]
                      | err e => simp [NoPanicRes, hf, ha]
                      | panic m => simp [NoPanicRes] at h2
              | err e => simp [NoPanicRes, hf]
              | panic m => simp [NoPanicRes] at h1
      | ctr cn cargs => simp [Term.walkSafe] at hsafe
      | num nv => simp [Term.walkSafe] at hsafe
      | tup p1 p2 => simp [Term.walkSafe] at hsafe
  | Term.dup dfst dsnd fst snd, ctrs, d, b, c, hsafe => by
      simp only [Term.walkSafe, Bool.and_eq_true] at hsafe
      simp only [Term.extract_adt_matches]
      have h1 := walk_nopanic fst ctrs d b c hsafe.1
      cases hf : Term.extract_adt_matches fst d b ctrs c with
      | mk res1 ws1 =>
          rw [hf] at h1
          cases res1 with
          | ok v1 =>
              obtain ⟨fst2, nd1, c1⟩ := v1
              have h2 := walk_nopanic snd ctrs d b c1 hsafe.2
              cases ha : Term.extract_adt_matches snd d b ctrs c1 with
              | mk res2 ws2 =>
                  rw [ha] at h2
                  cases res2 with
                  | ok v2 =>
                      obtain ⟨snd2, nd2, c2⟩ := v2
                      simp [NoPanicRes, hf, ha]
                  | err e => simp [NoPanicRes, hf, ha]
                  | panic m => simp [NoPanicRes] at h2
          | err e => simp [NoPanicRes, hf]
          | panic m => simp [NoPanicRes] at h1
  | Term.tup fst snd, ctrs, d, b, c, hsafe => by
      simp only [Term.walkSafe, Bool.and_eq_true] at hsafe
      simp only [Term.extract_adt_matches]
      have h1 := walk_nopanic fst ctrs d b c hsafe.1
      cases hf : Term.extract_adt_matches fst d b ctrs c with
      | mk res1 ws1 =>
          rw [hf] at h1
          cases res1 with
          | ok v1 =>
              obtain ⟨fst2, nd1, c1⟩ := v1
              have h2 := walk_nopanic snd ctrs d b c1 hsafe.2
              cases ha : Term.extract_adt_matches snd d b ctrs c1 with
              | mk res2 ws2 =>
                  rw [ha] at h2
                  cases res2 with
                  | ok v2 =>
                      obtain ⟨snd2, nd2, c2⟩ := v2
                      simp [NoPanicRes, hf, ha]
                  | err e => simp [NoPanicRes, hf, ha]
                  | panic m => simp [NoPanicRes] at h2
          | err e => simp [NoPanicRes, hf]
          | panic m => simp [NoPanicRes] at h1
  | Term.sup fst snd, ctrs, d, b, c, hsafe => by
      simp only [Term.walkSafe, Bool.and_eq_true] at hsafe
      simp only [Term.extract_adt_matches]
      have h1 := walk_nopanic fst ctrs d b c hsafe.1
      cases hf : Term.extract_adt_matches fst d b ctrs c with
      | mk res1 ws1 =>
          rw [hf] at h1
          cases res1 with
          | ok v1 =>
              obtain ⟨fst2, nd1, c1⟩ := v1
              have h2 := walk_nopanic snd ctrs d b c1 hsafe.2
              cases ha : Term.extract_adt_matches snd d b ctrs c1 with
              | mk res2 ws2 =>
                  rw [ha] at h2
                  cases res2 with
                  | ok v2 =>
                      obtain ⟨snd2, nd2, c2⟩ := v2
                      simp [NoPanicRes, hf, ha]
                  | err e => simp [NoPanicRes, hf, ha]
                  | panic m => simp [NoPanicRes] at h2
          | err e => simp [NoPanicRes, hf]
          | panic m => simp [NoPanicRes] at h1
  | Term.opx op fst snd, ctrs, d, b, c, hsafe => by
      simp only [Term.walkSafe, Bool.and_eq_true] at hsafe
      simp only [Term.extract_adt_matches]
      have h1 := walk_nopanic fst ctrs d b c hsafe.1
      cases hf : Term.extract_adt_matches fst d b ctrs c with
      | mk res1 ws1 =>
          rw [hf] at h1
          cases res1 with
          | ok v1 =>
              obtain ⟨fst2, nd1, c1⟩ := v1
              have h2 := walk_nopanic snd ctrs d b c1 hsafe.2
              cases ha : Term.extract_adt_matches snd d b ctrs c1 with
              | mk res2 ws2 =>
                  rw [ha] at h2
                  cases res2 with
                  | ok v2 =>
                      obtain ⟨snd2, nd2, c2⟩ := v2
                      simp [NoPanicRes, hf, ha]
                  | err e => simp [NoPanicRes, hf, ha]
                  | panic m => simp [NoPanicRes] at h2
          | err e => simp [NoPanicRes, hf]
          | panic m => simp [NoPanicRes] at h1
  | Term.mat scrut arms, ctrs, d, b, c, hsafe => by
      cases scrut
      case var x =>
        simp only [Term.walkSafe] at hsafe
        exact (walk_safe (Term.mat (Term.var x) arms) ctrs d b c hsafe).noPanic
      all_goals simp [Term.walkSafe] at hsafe

/-- The arm loop of the walker never panics on `walkSafe` arm bodies. -/
theorem armsWalk_nopanic : ∀ (arms : Arms) (ctrs : Ctrs) (d : Name) (b : Bool) (c : Nat),
    Arms.walkSafe ctrs arms = true → NoPanicRes (Arms.extract_adt_matches arms d b ctrs c)
  | Arms.nil, ctrs, d, b, c, hsafe => by simp [Arms.extract_adt_matches, NoPanicRes]
  | Arms.cons p bd rest, ctrs, d, b, c, hsafe => by
      simp only [Arms.walkSafe, Bool.and_eq_true] at hsafe
      simp only [Arms.extract_adt_matches]
      have h1 := walk_nopanic bd ctrs d b c hsafe.1
      cases hb : Term.extract_adt_matches bd d b ctrs c with
      | mk res1 ws1 =>
          rw [hb] at h1
          cases res1 with
          | ok v =>
              obtain ⟨bd2, nd1, c1⟩ := v
              have h2 := armsWalk_nopanic rest ctrs d b c1 hsafe.2
              cases hr : Arms.extract_adt_matches rest d b ctrs c1 with
              | mk res2 ws2 =>
                  rw [hr] at h2
                  cases res2 with
                  | ok v2 =>
                      obtain ⟨rest2, nd2, c2⟩ := v2
                      simp [NoPanicRes, hb, hr]
                  | err e => simp [NoPanicRes, hb, hr]
                  | panic m => simp [NoPanicRes] at h2
          | err e => simp [NoPanicRes, hb]
          | panic m => simp [NoPanicRes] at h1
end

/-- The rule loop never panics when every rule body is `walkSafe`. -/
theorem runRules_nopanic : ∀ (rules : List Rule) (d : Name) (b : Bool) (ctrs : Ctrs),
    (∀ r ∈ rules, Term.walkSafe ctrs r.body = true) →
    ∀ m, runRules d b ctrs rules ≠ RulesRes.panic m
  | [], d, b, ctrs, h, m => by simp [runRules]
  | r :: rs, d, b, ctrs, h, m => by
      simp only [runRules]
      have h1 := walk_nopanic r.body ctrs d b 0 (h r (by simp))
      cases hw : Term.extract_adt_matches r.body d b ctrs 0 with
      | mk res ws =>
          rw [hw] at h1
          cases res with
          | ok v =>
              obtain ⟨t2, nd1, c2⟩ := v
              cases hrr : runRules d b ctrs rs with
              | ok rs2 nd2 ws2 => simp [hw, hrr]
              | err rs2 ws2 m2 => simp [hw, hrr]
              | panic m2 =>
                  exact absurd hrr
                    (runRules_nopanic rs d b ctrs (fun q hq => h q (by simp [hq])) m2)
          | err e => simp [hw]
          | panic m2 => simp [NoPanicRes] at h1

/-- The definition loop never panics when every rule body is `walkSafe`. -/
theorem runDefs_nopanic : ∀ (ds : List (Name × Definition)) (ctrs : Ctrs),
    (∀ nd ∈ ds, ∀ r ∈ (Prod.snd nd).rules, Term.walkSafe ctrs r.body = true) →
    ∀ m, runDefs ctrs ds ≠ DefsRes.panic m
  | [], ctrs, h, m => by simp [runDefs]
  | (n, df) :: ds, ctrs, h, m => by
      simp only [runDefs]
      cases hrr : runRules n df.builtin ctrs df.rules with
      | ok rules2 nd1 ws1 =>
          cases hrd : runDefs ctrs ds with
          | ok ds2 nd2 ws2 => simp [hrr, hrd]
          | err ds2 ws2 m2 => simp [hrr, hrd]
          | panic m2 =>
              exact absurd hrd
                (runDefs_nopanic ds ctrs (fun q hq => h q (by simp [hq])) m2)
      | err rules2 ws1 m1 => simp [hrr]
      | panic m1 =>
          exact absurd hrr
            (runRules_nopanic df.rules n df.builtin ctrs
              (fun r hr => h (n, df) (by simp) r hr) m1)

/-- Claim C9 (as stated, refuted at a concrete input): the one-definition book
`match x { a => <error placeholder> }` satisfies the claim's quoted
preconditions (no destructuring let, no list literals, every match scrutinee
a bare variable) yet the stage reaches the `todo!()` arm of `Term::extract`
and panics instead of returning success or an error. -/
theorem c9_err_under_match_panics :
    Book.precondOk cBook9 = true ∧
    Book.extract_adt_matches cBook9 = BookRes.panic "not yet implemented" := ⟨rfl, rfl⟩

/-- Claim C9 (amended): with the quoted preconditions strengthened by the
spec's remaining input contract (constructor patterns registered) and by
excluding the error-placeholder term from match-on-variable subtrees (where
`Term::extract`'s handling of it is `todo!()`), the stage is total: it never
reaches a panic, returning success or an error. -/
theorem c9_no_panic (book : Book) (h : Book.walkSafeB book = true) :
    (Book.extract_adt_matches book).isPanic = false := by
  have h' : ∀ nd ∈ book.defs, ∀ r ∈ (Prod.snd nd).rules, Term.walkSafe book.ctrs r.body = true := by
    intro nd hnd r hr
    simp only [Book.walkSafeB, List.all_eq_true] at h
    exact h nd hnd r hr
  simp only [Book.extract_adt_matches]
  cases hrd : runDefs book.ctrs book.defs with
  | ok ds nd ws => simp [BookRes.isPanic, hrd]
  | err ds ws m => simp [BookRes.isPanic, hrd]
  | panic m => exact absurd hrd (runDefs_nopanic book.defs book.ctrs h' m)

/-- Claim C9 witness: `cBook8` satisfies the amended preconditions and indeed
terminates without panicking (it returns an error). -/
theorem c9_no_panic_witness :
    Book.walkSafeB cBook8 = true ∧ (Book.extract_adt_matches cBook8).isPanic = false :=
  ⟨rfl, c9_no_panic cBook8 rfl⟩

/-! ## Claim C7: fixed-point machinery -/

theorem EFix_var (ctrs : Ctrs) (n : Name) : EFix ctrs (Term.var n) := fun _ _ _ => rfl

theorem EFix_lnk (ctrs : Ctrs) (n : Name) : EFix ctrs (Term.lnk n) := fun _ _ _ => rfl

theorem EFix_num (ctrs : Ctrs) (v : Nat) : EFix ctrs (Term.num v) := fun _ _ _ => rfl

theorem EFix_str (ctrs : Ctrs) (v : String) : EFix ctrs (Term.str v) := fun _ _ _ => rfl

theorem EFix_ref (ctrs : Ctrs) (n : Name) : EFix ctrs (Term.ref n) := fun _ _ _ => rfl

theorem EFix_era (ctrs : Ctrs) : EFix ctrs Term.era := fun _ _ _ => rfl

theorem EFix_lam (ctrs : Ctrs) (n : Option Name) (bod : Term) (h : EFix ctrs bod) :
    EFix ctrs (Term.lam n bod) := fun d b c => by simp [Term.extract, h d b c]

theorem EFix_chn (ctrs : Ctrs) (n : Name) (bod : Term) (h : EFix ctrs bod) :
    EFix ctrs (Term.chn n bod) := fun d b c => by simp [Term.extract, h d b c]

theorem EFix_app (ctrs : Ctrs) (fn arg : Term) (hf : EFix ctrs fn) (ha : EFix ctrs arg) :
    EFix ctrs (Term.app fn arg) := fun d b c => by simp [Term.extract, hf d b c, ha d b c]

theorem EFix_letE (ctrs : Ctrs) (v : Option Name) (fst snd : Term)
    (hf : EFix ctrs fst) (ha : EFix ctrs snd) :
    EFix ctrs (Term.letE (Pattern.var v) fst snd) := fun d b c => by
  simp [Term.extract, hf d b c, ha d b c]

theorem EFix_dup (ctrs : Ctrs) (dfst dsnd : Option Name) (fst snd : Term)
    (hf : EFix ctrs fst) (ha : EFix ctrs snd) :
    EFix ctrs (Term.dup dfst dsnd fst snd) := fun d b c => by
  simp [Term.extract, hf d b c, ha d b c]

theorem EFix_tup (ctrs : Ctrs) (fst snd : Term) (hf : EFix ctrs fst) (ha : EFix ctrs snd) :
    EFix ctrs (Term.tup fst snd) := fun d b c => by simp [Term.extract, hf d b c, ha d b c]

theorem EFix_sup (ctrs : Ctrs) (fst snd : Term) (hf : EFix ctrs fst) (ha : EFix ctrs snd) :
    EFix ctrs (Term.sup fst snd) := fun d b c => by simp [Term.extract, hf d b c, ha d b c]

theorem EFix_opx (ctrs : Ctrs) (op : Oper) (fst snd : Term)
    (hf : EFix ctrs fst) (ha : EFix ctrs snd) :
    EFix ctrs (Term.opx op fst snd) := fun d b c => by simp [Term.extract, hf d b c, ha d b c]

theorem AEFix_nil (ctrs : Ctrs) : AEFix ctrs Arms.nil := fun _ _ _ => rfl

theorem AEFix_cons (ctrs : Ctrs) (p : Pattern) (bd : Term) (rest : Arms)
    (hb : EFix ctrs bd) (hr : AEFix ctrs rest) : AEFix ctrs (Arms.cons p bd rest) :=
  fun d b c => by simp [Arms.extract, hb d b c, hr d b c]

theorem EFix_mat_nonext (ctrs : Ctrs) (x : Name) (arms : Arms) (mt : MType)
    (hA : AEFix ctrs arms) (hI : infer_match_type arms.pats ctrs = Res.ok mt)
    (hmt : mt = MType.none ∨ mt = MType.any ∨ mt = MType.num) :
    EFix ctrs (Term.mat (Term.var x) arms) := fun d b c => by
  rcases hmt with hmt | hmt | hmt <;> subst hmt <;> simp [Term.extract, hA d b c, hI]

theorem WFix_var (ctrs : Ctrs) (n : Name) : WFix ctrs (Term.var n) := fun _ _ _ => ⟨[], rfl⟩

theorem WFix_lnk (ctrs : Ctrs) (n : Name) : WFix ctrs (Term.lnk n) := fun _ _ _ => ⟨[], rfl⟩

theorem WFix_num (ctrs : Ctrs) (v : Nat) : WFix ctrs (Term.num v) := fun _ _ _ => ⟨[], rfl⟩

theorem WFix_str (ctrs : Ctrs) (v : String) : WFix ctrs (Term.str v) := fun _ _ _ => ⟨[], rfl⟩

theorem WFix_ref (ctrs : Ctrs) (n : Name) : WFix ctrs (Term.ref n) := fun _ _ _ => ⟨[], rfl⟩

theorem WFix_era (ctrs : Ctrs) : WFix ctrs Term.era := fun _ _ _ => ⟨[], rfl⟩

theorem WFix_err (ctrs : Ctrs) : WFix ctrs Term.err := fun _ _ _ => ⟨[], rfl⟩

theorem WFix_lam (ctrs : Ctrs) (n : Option Name) (bod : Term) (h : WFix ctrs bod) :
    WFix ctrs (Term.lam n bod) := fun d b c => by
  obtain ⟨ws, hws⟩ := h d b c
  exact ⟨ws, by simp [Term.extract_adt_matches, hws]⟩

theorem WFix_chn (ctrs : Ctrs) (n : Name) (bod : Term) (h : WFix ctrs bod) :
    WFix ctrs (Term.chn n bod) := fun d b c => by
  obtain ⟨ws, hws⟩ := h d b c
  exact ⟨ws, by simp [Term.extract_adt_matches, hws]⟩

theorem WFix_app (ctrs : Ctrs) (fn arg : Term) (hf : WFix ctrs fn) (ha : WFix ctrs arg) :
    WFix ctrs (Term.app fn arg) := fun d b c => by
  obtain ⟨ws1, hws1⟩ := hf d b c
  obtain ⟨ws2, hws2⟩ := ha d b c
  exact ⟨ws1 ++ ws2, by simp [Term.extract_adt_matches, hws1, hws2]⟩

theorem WFix_letE (ctrs : Ctrs) (v : Option Name) (fst snd : Term)
    (hf : WFix ctrs fst) (ha : WFix ctrs snd) :
    WFix ctrs (Term.letE (Pattern.var v) fst snd) := fun d b c => by
  obtain ⟨ws1, hws1⟩ := hf d b c
  obtain ⟨ws2, hws2⟩ := ha d b c
  exact ⟨ws1 ++ ws2, by simp [Term.extract_adt_matches, hws1, hws2]⟩

theorem WFix_dup (ctrs : Ctrs) (dfst dsnd : Option Name) (fst snd : Term)
    (hf : WFix ctrs fst) (ha : WFix ctrs snd) :
    WFix ctrs (Term.dup dfst dsnd fst snd) := fun d b c => by
  obtain ⟨ws1, hws1⟩ := hf d b c
  obtain ⟨ws2, hws2⟩ := ha d b c
  exact ⟨ws1 ++ ws2, by simp [Term.extract_adt_matches, hws1, hws2]⟩

theorem WFix_tup (ctrs : Ctrs) (fst snd : Term) (hf : WFix ctrs fst) (ha : WFix ctrs snd) :
    WFix ctrs (Term.tup fst snd) := fun d b c => by
  obtain ⟨ws1, hws1⟩ := hf d b c
  obtain ⟨ws2, hws2⟩ := ha d b c
  exact ⟨ws1 ++ ws2, by simp [Term.extract_adt_matches, hws1, hws2]⟩

theorem WFix_sup (ctrs : Ctrs) (fst snd : Term) (hf : WFix ctrs fst) (ha : WFix ctrs snd) :
    WFix ctrs (Term.sup fst snd) := fun d b c => by
  obtain ⟨ws1, hws1⟩ := hf d b c
  obtain ⟨ws2, hws2⟩ := ha d b c
  exact ⟨ws1 ++ ws2, by simp [Term.extract_adt_matches, hws1, hws2]⟩

theorem WFix_opx (ctrs : Ctrs) (op : Oper) (fst snd : Term)
    (hf : WFix ctrs fst) (ha : WFix ctrs snd) :
    WFix ctrs (Term.opx op fst snd) := fun d b c => by
  obtain ⟨ws1, hws1⟩ := hf d b c
  obtain ⟨ws2, hws2⟩ := ha d b c
  exact ⟨ws1 ++ ws2, by simp [Term.extract_adt_matches, hws1, hws2]⟩

theorem AWFix_nil (ctrs : Ctrs) : AWFix ctrs Arms.nil := fun _ _ _ => ⟨[], rfl⟩

theorem AWFix_cons (ctrs : Ctrs) (p : Pattern) (bd : Term) (rest : Arms)
    (hb : WFix ctrs bd) (hr : AWFix ctrs rest) : AWFix ctrs (Arms.cons p bd rest) :=
  fun d b c => by
    obtain ⟨ws1, hws1⟩ := hb d b c
    obtain ⟨ws2, hws2⟩ := hr d b c
    exact ⟨ws1 ++ ws2, by simp [Arms.extract_adt_matches, hws1, hws2]⟩

theorem WFix_mat_of (ctrs : Ctrs) (x : Name) (arms : Arms)
    (hAW : AWFix ctrs arms) (hE : EFix ctrs (Term.mat (Term.var x) arms)) :
    WFix ctrs (Term.mat (Term.var x) arms) := fun d b c => by
  obtain ⟨ws1, hws1⟩ := hAW d b c
  refine ⟨(if arms.allVarPats = true ∧ arms.len > 1 then [Warning.matchOnlyVars d] else []) ++ ws1,
    ?_⟩
  simp [Term.extract_adt_matches, hws1, hE d b c]

theorem DefsFix_nil (ctrs : Ctrs) : DefsFix ctrs [] := by intro p hp; simp at hp

theorem DefsFix_append (ctrs : Ctrs) (nd1 nd2 : List (Name × Definition))
    (h1 : DefsFix ctrs nd1) (h2 : DefsFix ctrs nd2) : DefsFix ctrs (nd1 ++ nd2) := by
  intro p hp
  rcases List.mem_append.mp hp with hp | hp
  · exact h1 p hp
  · exact h2 p hp

theorem BodiesFix_nil (ctrs : Ctrs) : BodiesFix ctrs Arms.nil := by
  intro pb hpb; simp [Arms.toList] at hpb

theorem BodiesFix_cons (ctrs : Ctrs) (p : Pattern) (bd : Term) (rest : Arms)
    (hb : EFix ctrs bd ∧ WFix ctrs bd) (hr : BodiesFix ctrs rest) :
    BodiesFix ctrs (Arms.cons p bd rest) := by
  intro pb hpb
  simp only [Arms.toList, List.mem_cons] at hpb
  rcases hpb with hpb | hpb
  · subst hpb; exact hb
  · exact hr pb hpb

theorem DefsFix_single (ctrs : Ctrs) (nm : Name) (arms : Arms) (b : Bool)
    (h : BodiesFix ctrs arms) :
    DefsFix ctrs [(nm, { name := nm, rules := arms.toRules, builtin := b })] := by
  intro p hp
  simp at hp
  subst hp
  intro r hr
  simp only [toRules_eq_map, List.mem_map] at hr
  obtain ⟨pb, hpb, hrr⟩ := hr
  have := h pb hpb
  rw [← hrr] at *
  exact this

mutual
/-- Everything `Term::extract` returns is a fixed point of both traversals,
and so are the rule bodies of everything it synthesizes. -/
theorem extract_fix : ∀ (t : Term) (d : Name) (b : Bool) (ctrs : Ctrs) (c : Nat)
    (t2 : Term) (nd : List (Name × Definition)) (c2 : Nat),
    Term.extract t d b ctrs c = Res.ok (t2, nd, c2) →
    EFix ctrs t2 ∧ WFix ctrs t2 ∧ DefsFix ctrs nd
  | Term.var n, d, b, ctrs, c, t2, nd, c2, h => by
      simp [Term.extract] at h
      obtain ⟨h1, h2, -⟩ := h
      subst h1; subst h2
      exact ⟨EFix_var ctrs n, WFix_var ctrs n, DefsFix_nil ctrs⟩
  | Term.lnk n, d, b, ctrs, c, t2, nd, c2, h => by
      simp [Term.extract] at h
      obtain ⟨h1, h2, -⟩ := h
      subst h1; subst h2
      exact ⟨EFix_lnk ctrs n, WFix_lnk ctrs n, DefsFix_nil ctrs⟩
  | Term.num v, d, b, ctrs, c, t2, nd, c2, h => by
      simp [Term.extract] at h
      obtain ⟨h1, h2, -⟩ := h
      subst h1; subst h2
      exact ⟨EFix_num ctrs v, WFix_num ctrs v, DefsFix_nil ctrs⟩
  | Term.str v, d, b, ctrs, c, t2, nd, c2, h => by
      simp [Term.extract] at h
      obtain ⟨h1, h2, -⟩ := h
      subst h1; subst h2
      exact ⟨EFix_str ctrs v, WFix_str ctrs v, DefsFix_nil ctrs⟩
  | Term.ref n, d, b, ctrs, c, t2, nd, c2, h => by
      simp [Term.extract] at h
      obtain ⟨h1, h2, -⟩ := h
      subst h1; subst h2
      exact ⟨EFix_ref ctrs n, WFix_ref ctrs n, DefsFix_nil ctrs⟩
  | Term.era, d, b, ctrs, c, t2, nd, c2, h => by
      simp [Term.extract] at h
      obtain ⟨h1, h2, -⟩ := h
      subst h1; subst h2
      exact ⟨EFix_era ctrs, WFix_era ctrs, DefsFix_nil ctrs⟩
  | Term.err, d, b, ctrs, c, t2, nd, c2, h => by simp [Term.extract] at h
  | Term.lst els, d, b, ctrs, c, t2, nd, c2, h => by simp [Term.extract] at h
  | Term.lam n bod, d, b, ctrs, c, t2, nd, c2, h => by
      simp only [Term.extract] at h
      split at h
      · next bod2 nd1 c1 hb =>
          obtain ⟨hE, hW, hD⟩ := extract_fix bod d b ctrs c bod2 nd1 c1 hb
          simp at h
          obtain ⟨h1, h2, -⟩ := h
          subst h1; subst h2
          exact ⟨EFix_lam ctrs n bod2 hE, WFix_lam ctrs n bod2 hW, hD⟩
      · exact absurd h (by simp)
      · exact absurd h (by simp)
  | Term.chn n bod, d, b, ctrs, c, t2, nd, c2, h => by
      simp only [Term.extract] at h
      split at h
      · next bod2 nd1 c1 hb =>
          obtain ⟨hE, hW, hD⟩ := extract_fix bod d b ctrs c bod2 nd1 c1 hb
          simp at h
          obtain ⟨h1, h2, -⟩ := h
          subst h1; subst h2
          exact ⟨EFix_chn ctrs n bod2 hE, WFix_chn ctrs n bod2 hW, hD⟩
      · exact absurd h (by simp)
      · exact absurd h (by simp)
  | Term.app fn arg, d, b, ctrs, c, t2, nd, c2, h => by
      simp only [Term.extract] at h
      split at h
      · next fn2 nd1 c1 hf =>
          obtain ⟨hE1, hW1, hD1⟩ := extract_fix fn d b ctrs c fn2 nd1 c1 hf
          split at h
          · next arg2 nd2 c2' ha =>
              obtain ⟨hE2, hW2, hD2⟩ := extract_fix arg d b ctrs c1 arg2 nd2 c2' ha
              simp at h
              obtain ⟨h1, h2, -⟩ := h
              subst h1; subst h2
              exact ⟨EFix_app ctrs fn2 arg2 hE1 hE2, WFix_app ctrs fn2 arg2 hW1 hW2,
                DefsFix_append ctrs nd1 nd2 hD1 hD2⟩
          · exact absurd h (by simp)
          · exact absurd h (by simp)
      · exact absurd h (by simp)
      · exact absurd h (by simp)
  | Term.letE pat fst snd, d, b, ctrs, c, t2, nd, c2, h => by
      cases pat with
      | var v =>
          simp only [Term.extract] at h
          split at h
          · next fst2 nd1 c1 hf =>
              obtain ⟨hE1, hW1, hD1⟩ := extract_fix fst d b ctrs c fst2 nd1 c1 hf
              split at h
              · next snd2 nd2 c2' ha =>
                  obtain ⟨hE2, hW2, hD2⟩ := extract_fix snd d b ctrs c1 snd2 nd2 c2' ha
                  simp at h
                  obtain ⟨h1, h2, -⟩ := h
                  subst h1; subst h2
                  exact ⟨EFix_letE ctrs v fst2 snd2 hE1 hE2,
                    WFix_letE ctrs v fst2 snd2 hW1 hW2,
                    DefsFix_append ctrs nd1 nd2 hD1 hD2⟩
              · exact absurd h (by simp)
              · exact absurd h (by simp)
          · exact absurd h (by simp)
          · exact absurd h (by simp)
      | ctr cn cargs => simp [Term.extract] at h
      | num nv => simp [Term.extract] at h
      | tup p1 p2 => simp [Term.extract] at h
  | Term.dup dfst dsnd fst snd, d, b, ctrs, c, t2, nd, c2, h => by
      simp only [Term.extract] at h
      split at h
      · next fst2 nd1 c1 hf =>
          obtain ⟨hE1, hW1, hD1⟩ := extract_fix fst d b ctrs c fst2 nd1 c1 hf
          split at h
          · next snd2 nd2 c2' ha =>
              obtain ⟨hE2, hW2, hD2⟩ := extract_fix snd d b ctrs c1 snd2 nd2 c2' ha
              simp at h
              obtain ⟨h1, h2, -⟩ := h
              subst h1; subst h2
              exact ⟨EFix_dup ctrs dfst dsnd fst2 snd2 hE1 hE2,
                WFix_dup ctrs dfst dsnd fst2 snd2 hW1 hW2,
                DefsFix_append ctrs nd1 nd2 hD1 hD2⟩
          · exact absurd h (by simp)
          · exact absurd h (by simp)
      · exact absurd h (by simp)
      · exact absurd h (by simp)
  | Term.tup fst snd, d, b, ctrs, c, t2, nd, c2, h => by
      simp only [Term.extract] at h
      split at h
      · next fst2 nd1 c1 hf =>
          obtain ⟨hE1, hW1, hD1⟩ := extract_fix fst d b ctrs c fst2 nd1 c1 hf
          split at h
          · next snd2 nd2 c2' ha =>
              obtain ⟨hE2, hW2, hD2⟩ := extract_fix snd d b ctrs c1 snd2 nd2 c2' ha
              simp at h
              obtain ⟨h1, h2, -⟩ := h
              subst h1; subst h2
              exact ⟨EFix_tup ctrs fst2 snd2 hE1 hE2, WFix_tup ctrs fst2 snd2 hW1 hW2,
                DefsFix_append ctrs nd1 nd2 hD1 hD2⟩
          · exact absurd h (by simp)
          · exact absurd h (by simp)
      · exact absurd h (by simp)
      · exact absurd h (by simp)
  | Term.sup fst snd, d, b, ctrs, c, t2, nd, c2, h => by
      simp only [Term.extract] at h
      split at h
      · next fst2 nd1 c1 hf =>
          obtain ⟨hE1, hW1, hD1⟩ := extract_fix fst d b ctrs c fst2 nd1 c1 hf
          split at h
          · next snd2 nd2 c2' ha =>
              obtain ⟨hE2, hW2, hD2⟩ := extract_fix snd d b ctrs c1 snd2 nd2 c2' ha
              simp at h
              obtain ⟨h1, h2, -⟩ := h
              subst h1; subst h2
              exact ⟨EFix_sup ctrs fst2 snd2 hE1 hE2, WFix_sup ctrs fst2 snd2 hW1 hW2,
                DefsFix_append ctrs nd1 nd2 hD1 hD2⟩
          · exact absurd h (by simp)
          · exact absurd h (by simp)
      · exact absurd h (by simp)
      · exact absurd h (by simp)
  | Term.opx op fst snd, d, b, ctrs, c, t2, nd, c2, h => by
      simp only [Term.extract] at h
      split at h
      · next fst2 nd1 c1 hf =>
          obtain ⟨hE1, hW1, hD1⟩ := extract_fix fst d b ctrs c fst2 nd1 c1 hf
          split at h
          · next snd2 nd2 c2' ha =>
              obtain ⟨hE2, hW2, hD2⟩ := extract_fix snd d b ctrs c1 snd2 nd2 c2' ha
              simp at h
              obtain ⟨h1, h2, -⟩ := h
              subst h1; subst h2
              exact ⟨EFix_opx ctrs op fst2 snd2 hE1 hE2, WFix_opx ctrs op fst2 snd2 hW1 hW2,
                DefsFix_append ctrs nd1 nd2 hD1 hD2⟩
          · exact absurd h (by simp)
          · exact absurd h (by simp)
      · exact absurd h (by simp)
      · exact absurd h (by simp)
  | Term.mat scrut arms, d, b, ctrs, c, t2, nd, c2, h => by
      cases scrut
      case var x =>
        simp only [Term.extract] at h
        split at h
        · next arms2 nd1 c1 hA =>
            obtain ⟨hAE, hAW, hBF, hDF⟩ := armsExtract_fix arms d b ctrs c arms2 nd1 c1 hA
            split at h
            · next mt hI =>
                cases mt with
                | none =>
                    simp at h
                    obtain ⟨h1, h2, -⟩ := h
                    subst h1; subst h2
                    have hEm := EFix_mat_nonext ctrs x arms2 MType.none hAE hI (Or.inl rfl)
                    exact ⟨hEm, WFix_mat_of ctrs x arms2 hAW hEm, hDF⟩
                | any =>
                    simp at h
                    obtain ⟨h1, h2, -⟩ := h
                    subst h1; subst h2
                    have hEm := EFix_mat_nonext ctrs x arms2 MType.any hAE hI
                      (Or.inr (Or.inl rfl))
                    exact ⟨hEm, WFix_mat_of ctrs x arms2 hAW hEm, hDF⟩
                | num =>
                    simp at h
                    obtain ⟨h1, h2, -⟩ := h
                    subst h1; subst h2
                    have hEm := EFix_mat_nonext ctrs x arms2 MType.num hAE hI
                      (Or.inr (Or.inr rfl))
                    exact ⟨hEm, WFix_mat_of ctrs x arms2 hAW hEm, hDF⟩
                | adt a =>
                    simp [match_to_def] at h
                    obtain ⟨h1, h2, -⟩ := h
                    subst h1; subst h2
                    refine ⟨EFix_app ctrs _ _ (EFix_ref ctrs _) (EFix_var ctrs x),
                      WFix_app ctrs _ _ (WFix_ref ctrs _) (WFix_var ctrs x),
                      DefsFix_append ctrs nd1 _ hDF (DefsFix_single ctrs _ arms2 b hBF)⟩
                | tup =>
                    simp [match_to_def] at h
                    obtain ⟨h1, h2, -⟩ := h
                    subst h1; subst h2
                    refine ⟨EFix_app ctrs _ _ (EFix_ref ctrs _) (EFix_var ctrs x),
                      WFix_app ctrs _ _ (WFix_ref ctrs _) (WFix_var ctrs x),
                      DefsFix_append ctrs nd1 _ hDF (DefsFix_single ctrs _ arms2 b hBF)⟩
            · exact absurd h (by simp)
            · exact absurd h (by simp)
        · exact absurd h (by simp)
        · exact absurd h (by simp)
      all_goals simp [Term.extract] at h

/-- Everything the arm loop of `Term::extract` returns is a fixed point at
every level. -/
theorem armsExtract_fix : ∀ (arms : Arms) (d : Name) (b : Bool) (ctrs : Ctrs) (c : Nat)
    (arms2 : Arms) (nd : List (Name × Definition)) (c2 : Nat),
    Arms.extract arms d b ctrs c = Res.ok (arms2, nd, c2) →
    AEFix ctrs arms2 ∧ AWFix ctrs arms2 ∧ BodiesFix ctrs arms2 ∧ DefsFix ctrs nd
  | Arms.nil, d, b, ctrs, c, arms2, nd, c2, h => by
      simp [Arms.extract] at h
      obtain ⟨h1, h2, -⟩ := h
      subst h1; subst h2
      exact ⟨AEFix_nil ctrs, AWFix_nil ctrs, BodiesFix_nil ctrs, DefsFix_nil ctrs⟩
  | Arms.cons p bd rest, d, b, ctrs, c, arms2, nd, c2, h => by
      simp only [Arms.extract] at h
      split at h
      · next bd2 nd1 c1 hb =>
          obtain ⟨hE, hW, hD1⟩ := extract_fix bd d b ctrs c bd2 nd1 c1 hb
          split at h
          · next rest2 nd2 c2' hr =>
              obtain ⟨hAE, hAW, hBF, hD2⟩ := armsExtract_fix rest d b ctrs c1 rest2 nd2 c2' hr
              simp at h
              obtain ⟨h1, h2, -⟩ := h
              subst h1; subst h2
              exact ⟨AEFix_cons ctrs p bd2 rest2 hE hAE, AWFix_cons ctrs p bd2 rest2 hW hAW,
                BodiesFix_cons ctrs p bd2 rest2 ⟨hE, hW⟩ hBF,
                DefsFix_append ctrs nd1 nd2 hD1 hD2⟩
          · exact absurd h (by simp)
          · exact absurd h (by simp)
      · exact absurd h (by simp)
      · exact absurd h (by simp)
end

mutual
/-- Everything the walker returns is a fixed point of the walker, and the
rule bodies of everything it synthesizes are fixed points of both
traversals. -/
theorem walk_fix : ∀ (t : Term) (d : Name) (b : Bool) (ctrs : Ctrs) (c : Nat)
    (t2 : Term) (nd : List (Name × Definition)) (c2 : Nat) (ws : List Warning),
    Term.extract_adt_matches t d b ctrs c = (Res.ok (t2, nd, c2), ws) →
    WFix ctrs t2 ∧ DefsFix ctrs nd
  | Term.var n, d, b, ctrs, c, t2, nd, c2, ws, h => by
      simp [Term.extract_adt_matches] at h
      obtain ⟨⟨h1, h2, -⟩, -⟩ := h
      subst h1; subst h2
      exact ⟨WFix_var ctrs n, DefsFix_nil ctrs⟩
  | Term.lnk n, d, b, ctrs, c, t2, nd, c2, ws, h => by
      simp [Term.extract_adt_matches] at h
      obtain ⟨⟨h1, h2, -⟩, -⟩ := h
      subst h1; subst h2
      exact ⟨WFix_lnk ctrs n, DefsFix_nil ctrs⟩
  | Term.num v, d, b, ctrs, c, t2, nd, c2, ws, h => by
      simp [Term.extract_adt_matches] at h
      obtain ⟨⟨h1, h2, -⟩, -⟩ := h
      subst h1; subst h2
      exact ⟨WFix_num ctrs v, DefsFix_nil ctrs⟩
  | Term.str v, d, b, ctrs, c, t2, nd, c2, ws, h => by
      simp [Term.extract_adt_matches] at h
      obtain ⟨⟨h1, h2, -⟩, -⟩ := h
      subst h1; subst h2
      exact ⟨WFix_str ctrs v, DefsFix_nil ctrs⟩
  | Term.ref n, d, b, ctrs, c, t2, nd, c2, ws, h => by
      simp [Term.extract_adt_matches] at h
      obtain ⟨⟨h1, h2, -⟩, -⟩ := h
      subst h1; subst h2
      exact ⟨WFix_ref ctrs n, DefsFix_nil ctrs⟩
  | Term.era, d, b, ctrs, c, t2, nd, c2, ws, h => by
      simp [Term.extract_adt_matches] at h
      obtain ⟨⟨h1, h2, -⟩, -⟩ := h
      subst h1; subst h2
      exact ⟨WFix_era ctrs, DefsFix_nil ctrs⟩
  | Term.err, d, b, ctrs, c, t2, nd, c2, ws, h => by
      simp [Term.extract_adt_matches] at h
      obtain ⟨⟨h1, h2, -⟩, -⟩ := h
      subst h1; subst h2
      exact ⟨WFix_err ctrs, DefsFix_nil ctrs⟩
  | Term.lst els, d, b, ctrs, c, t2, nd, c2, ws, h => by
      simp [Term.extract_adt_matches] at h
  | Term.lam n bod, d, b, ctrs, c, t2, nd, c2, ws, h => by
      simp only [Term.extract_adt_matches] at h
      split at h
      · next bod2 nd1 c1 ws1 hb =>
          obtain ⟨hW, hD⟩ := walk_fix bod d b ctrs c bod2 nd1 c1 ws1 hb
          simp at h
          obtain ⟨⟨h1, h2, -⟩, -⟩ := h
          subst h1; subst h2
          exact ⟨WFix_lam ctrs n bod2 hW, hD⟩
      · exact absurd h (by simp)
      · exact absurd h (by simp)
  | Term.chn n bod, d, b, ctrs, c, t2, nd, c2, ws, h => by
      simp only [Term.extract_adt_matches] at h
      split at h
      · next bod2 nd1 c1 ws1 hb =>
          obtain ⟨hW, hD⟩ := walk_fix bod d b ctrs c bod2 nd1 c1 ws1 hb
          simp at h
          obtain ⟨⟨h1, h2, -⟩, -⟩ := h
          subst h1; subst h2
          exact ⟨WFix_chn ctrs n bod2 hW, hD⟩
      · exact absurd h (by simp)
      · exact absurd h (by simp)
  | Term.app fn arg, d, b, ctrs, c, t2, nd, c2, ws, h => by
      simp only [Term.extract_adt_matches] at h
      split at h
      · next fn2 nd1 c1 ws1 hf =>
          obtain ⟨hW1, hD1⟩ := walk_fix fn d b ctrs c fn2 nd1 c1 ws1 hf
          split at h
          · next arg2 nd2 c2' ws2 ha =>
              obtain ⟨hW2, hD2⟩ := walk_fix arg d b ctrs c1 arg2 nd2 c2' ws2 ha
              simp at h
              obtain ⟨⟨h1, h2, -⟩, -⟩ := h
              subst h1; subst h2
              exact ⟨WFix_app ctrs fn2 arg2 hW1 hW2, DefsFix_append ctrs nd1 nd2 hD1 hD2⟩
          · exact absurd h (by simp)
          · exact absurd h (by simp)
      · exact absurd h (by simp)
      · exact absurd h (by simp)
  | Term.letE pat fst snd, d, b, ctrs, c, t2, nd, c2, ws, h => by
      cases pat with
      | var v =>
          simp only [Term.extract_adt_matches] at h
          split at h
          · next fst2 nd1 c1 ws1 hf =>
              obtain ⟨hW1, hD1⟩ := walk_fix fst d b ctrs c fst2 nd1 c1 ws1 hf
              split at h
              · next snd2 nd2 c2' ws2 ha =>
                  obtain ⟨hW2, hD2⟩ := walk_fix snd d b ctrs c1 snd2 nd2 c2' ws2 ha
                  simp at h
                  obtain ⟨⟨h1, h2, -⟩, -⟩ := h
                  subst h1; subst h2
                  exact ⟨WFix_letE ctrs v fst2 snd2 hW1 hW2,
                    DefsFix_append ctrs nd1 nd2 hD1 hD2⟩
              · exact absurd h (by simp)
              · exact absurd h (by simp)
          · exact absurd h (by simp)
          · exact absurd h (by simp)
      | ctr cn cargs => simp [Term.extract_adt_matches] at h
      | num nv => simp [Term.extract_adt_matches] at h
      | tup p1 p2 => simp [Term.extract_adt_matches] at h
  | Term.dup dfst dsnd fst snd, d, b, ctrs, c, t2, nd, c2, ws, h => by
      simp only [Term.extract_adt_matches] at h
      split at h
      · next fst2 nd1 c1 ws1 hf =>
          obtain ⟨hW1, hD1⟩ := walk_fix fst d b ctrs c fst2 nd1 c1 ws1 hf
          split at h
          · next snd2 nd2 c2' ws2 ha =>
              obtain ⟨hW2, hD2⟩ := walk_fix snd d b ctrs c1 snd2 nd2 c2' ws2 ha
              simp at h
              obtain ⟨⟨h1, h2, -⟩, -⟩ := h
              subst h1; subst h2
              exact ⟨WFix_dup ctrs dfst dsnd fst2 snd2 hW1 hW2,
                DefsFix_append ctrs nd1 nd2 hD1 hD2⟩
          · exact absurd h (by simp)
          · exact absurd h (by simp)
      · exact absurd h (by simp)
      · exact absurd h (by simp)
  | Term.tup fst snd, d, b, ctrs, c, t2, nd, c2, ws, h => by
      simp only [Term.extract_adt_matches] at h
      split at h
      · next fst2 nd1 c1 ws1 hf =>
          obtain ⟨hW1, hD1⟩ := walk_fix fst d b ctrs c fst2 nd1 c1 ws1 hf
          split at h
          · next snd2 nd2 c2' ws2 ha =>
              obtain ⟨hW2, hD2⟩ := walk_fix snd d b ctrs c1 snd2 nd2 c2' ws2 ha
              simp at h
              obtain ⟨⟨h1, h2, -⟩, -⟩ := h
              subst h1; subst h2
              exact ⟨WFix_tup ctrs fst2 snd2 hW1 hW2, DefsFix_append ctrs nd1 nd2 hD1 hD2⟩
          · exact absurd h (by simp)
          · exact absurd h (by simp)
      · exact absurd h (by simp)
      · exact absurd h (by simp)
  | Term.sup fst snd, d, b, ctrs, c, t2, nd, c2, ws, h => by
      simp only [Term.extract_adt_matches] at h
      split at h
      · next fst2 nd1 c1 ws1 hf =>
          obtain ⟨hW1, hD1⟩ := walk_fix fst d b ctrs c fst2 nd1 c1 ws1 hf
          split at h
          · next snd2 nd2 c2' ws2 ha =>
              obtain ⟨hW2, hD2⟩ := walk_fix snd d b ctrs c1 snd2 nd2 c2' ws2 ha
              simp at h
              obtain ⟨⟨h1, h2, -⟩, -⟩ := h
              subst h1; subst h2
              exact ⟨WFix_sup ctrs fst2 snd2 hW1 hW2, DefsFix_append ctrs nd1 nd2 hD1 hD2⟩
          · exact absurd h (by simp)
          · exact absurd h (by simp)
      · exact absurd h (by simp)
      · exact absurd h (by simp)
  | Term.opx op fst snd, d, b, ctrs, c, t2, nd, c2, ws, h => by
      simp only [Term.extract_adt_matches] at h
      split at h
      · next fst2 nd1 c1 ws1 hf =>
          obtain ⟨hW1, hD1⟩ := walk_fix fst d b ctrs c fst2 nd1 c1 ws1 hf
          split at h
          · next snd2 nd2 c2' ws2 ha =>
              obtain ⟨hW2, hD2⟩ := walk_fix snd d b ctrs c1 snd2 nd2 c2' ws2 ha
              simp at h
              obtain ⟨⟨h1, h2, -⟩, -⟩ := h
              subst h1; subst h2
              exact ⟨WFix_opx ctrs op fst2 snd2 hW1 hW2, DefsFix_append ctrs nd1 nd2 hD1 hD2⟩
          · exact absurd h (by simp)
          · exact absurd h (by simp)
      · exact absurd h (by simp)
      · exact absurd h (by simp)
  | Term.mat scrut arms, d, b, ctrs, c, t2, nd, c2, ws, h => by
      cases scrut
      case var x =>
        simp only [Term.extract_adt_matches] at h
        split at h
        · next arms1 nd1 c1 ws1 hAW =>
            have hD1 := armsWalk_fix arms d b ctrs c arms1 nd1 c1 ws1 hAW
            split at h
            · next t2' nd2 c2' hE =>
                obtain ⟨-, hW2, hD2⟩ :=
                  extract_fix (Term.mat (Term.var x) arms1) d b ctrs c1 t2' nd2 c2' hE
                simp at h
                obtain ⟨⟨h1, h2, -⟩, -⟩ := h
                subst h1; subst h2
                exact ⟨hW2, DefsFix_append ctrs nd1 nd2 hD1 hD2⟩
            · exact absurd h (by simp)
            · exact absurd h (by simp)
        · exact absurd h (by simp)
        · exact absurd h (by simp)
      all_goals simp [Term.extract_adt_matches] at h

/-- Everything the walker's arm loop synthesizes has fixed-point rule
bodies. -/
theorem armsWalk_fix : ∀ (arms : Arms) (d : Name) (b : Bool) (ctrs : Ctrs) (c : Nat)
    (arms2 : Arms) (nd : List (Name × Definition)) (c2 : Nat) (ws : List Warning),
    Arms.extract_adt_matches arms d b ctrs c = (Res.ok (arms2, nd, c2), ws) →
    DefsFix ctrs nd
  | Arms.nil, d, b, ctrs, c, arms2, nd, c2, ws, h => by
      simp [Arms.extract_adt_matches] at h
      obtain ⟨⟨-, h2, -⟩, -⟩ := h
      subst h2
      exact DefsFix_nil ctrs
  | Arms.cons p bd rest, d, b, ctrs, c, arms2, nd, c2, ws, h => by
      simp only [Arms.extract_adt_matches] at h
      split at h
      · next bd2 nd1 c1 ws1 hb =>
          obtain ⟨-, hD1⟩ := walk_fix bd d b ctrs c bd2 nd1 c1 ws1 hb
          split at h
          · next rest2 nd2 c2' ws2 hr =>
              have hD2 := armsWalk_fix rest d b ctrs c1 rest2 nd2 c2' ws2 hr
              simp at h
              obtain ⟨⟨-, h2, -⟩, -⟩ := h
              subst h2
              exact DefsFix_append ctrs nd1 nd2 hD1 hD2
          · exact absurd h (by simp)
          · exact absurd h (by simp)
      · exact absurd h (by simp)
      · exact absurd h (by simp)
end

/-- What a successful rule loop returns and synthesizes is walker-fixed. -/
theorem runRules_fix : ∀ (rules : List Rule) (d : Name) (b : Bool) (ctrs : Ctrs)
    (rules2 : List Rule) (nd : List (Name × Definition)) (ws : List Warning),
    runRules d b ctrs rules = RulesRes.ok rules2 nd ws →
    (∀ r ∈ rules2, WFix ctrs r.body) ∧ DefsFix ctrs nd
  | [], d, b, ctrs, rules2, nd, ws, h => by
      simp [runRules] at h
      obtain ⟨h1, h2, -⟩ := h
      subst h1; subst h2
      exact ⟨by intro r hr; simp at hr, DefsFix_nil ctrs⟩
  | r :: rs, d, b, ctrs, rules2, nd, ws, h => by
      simp only [runRules] at h
      split at h
      · next t2 nd1 c2 ws1 hw =>
          obtain ⟨hW, hD1⟩ := walk_fix r.body d b ctrs 0 t2 nd1 c2 ws1 hw
          split at h
          · next rs2 nd2 ws2 hrr =>
              obtain ⟨hall, hD2⟩ := runRules_fix rs d b ctrs rs2 nd2 ws2 hrr
              simp at h
              obtain ⟨h1, h2, -⟩ := h
              subst h1; subst h2
              refine ⟨?_, DefsFix_append ctrs nd1 nd2 hD1 hD2⟩
              intro r' hr'
              simp at hr'
              rcases hr' with hr' | hr'
              · subst hr'; exact hW
              · exact hall r' hr'
          · exact absurd h (by simp)
          · exact absurd h (by simp)
      · exact absurd h (by simp)
      · exact absurd h (by simp)

/-- What a successful definition loop returns and synthesizes is
walker-fixed. -/
theorem runDefs_fix : ∀ (ds : List (Name × Definition)) (ctrs : Ctrs)
    (ds2 : List (Name × Definition)) (nd : List (Name × Definition)) (ws : List Warning),
    runDefs ctrs ds = DefsRes.ok ds2 nd ws →
    (∀ e ∈ ds2, ∀ r ∈ (Prod.snd e).rules, WFix ctrs r.body) ∧ DefsFix ctrs nd
  | [], ctrs, ds2, nd, ws, h => by
      simp [runDefs] at h
      obtain ⟨h1, h2, -⟩ := h
      subst h1; subst h2
      exact ⟨by intro e he; simp at he, DefsFix_nil ctrs⟩
  | (n, df) :: ds, ctrs, ds2, nd, ws, h => by
      simp only [runDefs] at h
      split at h
      · next rules2 nd1 ws1 hrr =>
          obtain ⟨hall1, hD1⟩ := runRules_fix df.rules n df.builtin ctrs rules2 nd1 ws1 hrr
          split at h
          · next ds3 nd2 ws2 hrd =>
              obtain ⟨hall2, hD2⟩ := runDefs_fix ds ctrs ds3 nd2 ws2 hrd
              simp at h
              obtain ⟨h1, h2, -⟩ := h
              subst h1; subst h2
              refine ⟨?_, DefsFix_append ctrs nd1 nd2 hD1 hD2⟩
              intro e he
              simp at he
              rcases he with he | he
              · subst he; exact hall1
              · exact hall2 e he
          · exact absurd h (by simp)
          · exact absurd h (by simp)
      · exact absurd h (by simp)
      · exact absurd h (by simp)

/-- A rule list whose bodies are walker-fixed is returned unchanged by the
rule loop, synthesizing nothing. -/
theorem runRules_of_fix : ∀ (rules : List Rule) (d : Name) (b : Bool) (ctrs : Ctrs),
    (∀ r ∈ rules, WFix ctrs r.body) →
    ∃ ws, runRules d b ctrs rules = RulesRes.ok rules [] ws
  | [], d, b, ctrs, h => ⟨[], rfl⟩
  | r :: rs, d, b, ctrs, h => by
      obtain ⟨ws1, hw⟩ := h r (by simp) d b 0
      obtain ⟨ws2, hrr⟩ := runRules_of_fix rs d b ctrs fun q hq => h q (by simp [hq])
      exact ⟨ws1 ++ ws2, by simp [runRules, hw, hrr]⟩

/-- A definition list whose rule bodies are walker-fixed is returned
unchanged by the definition loop, synthesizing nothing. -/
theorem runDefs_of_fix : ∀ (ds : List (Name × Definition)) (ctrs : Ctrs),
    (∀ e ∈ ds, ∀ r ∈ (Prod.snd e).rules, WFix ctrs r.body) →
    ∃ ws, runDefs ctrs ds = DefsRes.ok ds [] ws
  | [], ctrs, h => ⟨[], rfl⟩
  | (n, df) :: ds, ctrs, h => by
      obtain ⟨ws1, hrr⟩ := runRules_of_fix df.rules n df.builtin ctrs (h (n, df) (by simp))
      obtain ⟨ws2, hrd⟩ := runDefs_of_fix ds ctrs fun q hq => h q (by simp [hq])
      exact ⟨ws1 ++ ws2, by simp [runDefs, hrr, hrd]⟩

/-- The `insertRep` preserves an entry predicate. -/
theorem insertRep_pred (P : Name × Definition → Prop) :
    ∀ (base : List (Name × Definition)) (n : Name) (df : Definition),
    (∀ e ∈ base, P e) → P (n, df) → ∀ e ∈ insertRep base n df, P e
  | [], n, df, hb, hd, e, he => by
      simp [insertRep] at he
      subst he
      exact hd
  | (k, v) :: t, n, df, hb, hd, e, he => by
      simp only [insertRep] at he
      by_cases hk : k = n
      · simp [hk] at he
        rcases he with he | he
        · subst he; subst hk; exact hd
        · exact hb e (by simp [he])
      · simp [hk] at he
        rcases he with he | he
        · subst he; exact hb (k, v) (by simp)
        · exact insertRep_pred P t n df (fun e' he' => hb e' (by simp [he'])) hd e he

/-- The `extendDefs` preserves an entry predicate. -/
theorem extendDefs_pred (P : Name × Definition → Prop) :
    ∀ (nd base : List (Name × Definition)),
    (∀ e ∈ base, P e) → (∀ e ∈ nd, P e) → ∀ e ∈ extendDefs base nd, P e
  | [], base, hb, hn, e, he => by
      simp [extendDefs] at he
      exact hb e he
  | (n, df) :: rest, base, hb, hn, e, he => by
      simp only [extendDefs] at he
      exact extendDefs_pred P rest (insertRep base n df)
        (insertRep_pred P base n df hb (hn (n, df) (by simp)))
        (fun e' he' => hn e' (by simp [he'])) e he

/-- Claim C7: the stage is idempotent — on any book it succeeds on, a second
run extracts nothing (the definition loop returns the definitions unchanged
and synthesizes nothing) and returns the very same book. -/
theorem c7_idempotent (book book2 : Book) (ws : List Warning)
    (h : Book.extract_adt_matches book = BookRes.ok book2 ws) :
    ∃ ws2, runDefs book2.ctrs book2.defs = DefsRes.ok book2.defs [] ws2 ∧
      Book.extract_adt_matches book2 = BookRes.ok book2 ws2 := by
  simp only [Book.extract_adt_matches] at h
  split at h
  · next ds nd wsd hrd =>
      simp at h
      obtain ⟨hb, -⟩ := h
      obtain ⟨hds, hnd⟩ := runDefs_fix book.defs book.ctrs ds nd wsd hrd
      have hall : ∀ e ∈ extendDefs ds nd, ∀ r ∈ (Prod.snd e).rules, WFix book.ctrs r.body := by
        refine extendDefs_pred _ nd ds hds ?_
        intro e he r hr
        exact (hnd e he r hr).2
      subst hb
      obtain ⟨ws2, hrun⟩ := runDefs_of_fix (extendDefs ds nd) book.ctrs hall
      exact ⟨ws2, hrun, by simp [Book.extract_adt_matches, hrun, extendDefs]⟩
  · exact absurd h (by simp)
  · exact absurd h (by simp)

/-- Claim C7 witness: the one-tuple-match book, rewritten once and then run
again without change. -/
theorem c7_idempotent_witness :
    Book.extract_adt_matches cBookW = BookRes.ok cBookW2 [] ∧
    (∃ ws2, runDefs cBookW2.ctrs cBookW2.defs = DefsRes.ok cBookW2.defs [] ws2 ∧
      Book.extract_adt_matches cBookW2 = BookRes.ok cBookW2 ws2) :=
  ⟨rfl, c7_idempotent cBookW cBookW2 [] rfl⟩

end ExtractAdtMatches
